import Mathlib

/-
Verification development for the action execution engine of the Open
vSwitch kernel datapath (datapath/actions.c).

The C code is shallowly embedded: pure header-mutator logic becomes Lean
functions on small record types; the per-core mutable state (deferred
action queue, recursion level, packet allocator) is threaded explicitly
through an executor state record; side effects (sending to a port,
freeing a buffer, upcalls, enqueues, drain dispatches) are recorded as an
event trace.  External kernel helpers (checksum folding, skb cloning,
vport lookup, flow-key extraction) are abstracted as oracle parameters
carried by an environment record, following the interface boundary drawn
in the specification.
-/

/-! Constants from datapath/actions.c and the kernel headers it uses. -/

def DEFERRED_ACTION_FIFO_SIZE : Nat := 10

def EXEC_ACTIONS_LEVEL_LIMIT : Nat := 4

/-- Kernel errno values used by the file (returned negated in C). -/
def ENOMEM : Nat := 12

def ELOOP : Nat := 90

/-- CSUM_MANGLED_0: the all-ones representation of a zero checksum. -/
def CSUM_MANGLED_0 : Nat := 65535

/-! ## UDP checksum policy (set_udp_port, set_ip_addr, update_ipv6_checksum)

The incremental one's-complement correction itself is performed by the
external helpers inet_proto_csum_replace2/4/16; its numeric result is
abstracted as the argument upd.  The Bool hwPart models
skb->ip_summed == CHECKSUM_PARTIAL.  Each model returns the new stored
checksum together with a flag telling whether the incremental update was
applied at all. -/

/-- Model of the checksum handling in set_udp_port (actions.c:518):
the update runs only when the stored check is nonzero and the mode is
not CHECKSUM_PARTIAL, and a resulting zero is replaced by
CSUM_MANGLED_0; otherwise only the port is written. -/
def set_udp_port_check (check : Nat) (hwPart : Bool) (upd : Nat) : Nat × Bool :=
  if check ≠ 0 ∧ hwPart = false then
    ((if upd = 0 then CSUM_MANGLED_0 else upd), true)
  else
    (check, false)

/-- Model of the UDP branch of set_ip_addr (actions.c:347-357) and of
update_ipv6_checksum (actions.c:374-384): the update runs when the
stored check is nonzero or the mode is CHECKSUM_PARTIAL, and a
resulting zero is replaced by CSUM_MANGLED_0 unconditionally on the
mode.  The Bool fits models the transport_len >= sizeof(struct udphdr)
guard. -/
def set_ip_addr_udp_check (fits : Bool) (check : Nat) (hwPart : Bool) (upd : Nat) :
    Nat × Bool :=
  if fits = false then (check, false)
  else if check ≠ 0 ∨ hwPart = true then
    ((if upd = 0 then CSUM_MANGLED_0 else upd), true)
  else
    (check, false)

/-! ## SCTP checksum carry-through (set_sctp, actions.c:583-616) -/

/-- SCTP header slice relevant to set_sctp. -/
structure SctpHdr where
  source : Nat
  dest : Nat
  checksum : Nat
deriving DecidableEq, Repr

/-- Model of set_sctp.  crc abstracts sctp_compute_cksum as a function of
the two ports (the rest of the packet is fixed); writ models the
make_writable outcome.  When either port differs the stored checksum
becomes old_csum XOR old_correct_csum XOR new_csum, exactly as in the
source. -/
def set_sctp (crc : Nat → Nat → Nat) (writ : Bool) (h : SctpHdr)
    (ksrc kdst : Nat) : Option Nat × SctpHdr :=
  if writ = false then (some ENOMEM, h)
  else if ksrc ≠ h.source ∨ kdst ≠ h.dest then
    let old_correct_csum := crc h.source h.dest
    let new_csum := crc ksrc kdst
    (none, ⟨ksrc, kdst, (h.checksum ^^^ old_correct_csum) ^^^ new_csum⟩)
  else
    (none, h)

/-! ## IPv6 destination change and the Routing Header (set_ipv6) -/

/-- Modelled from the spec: the kernel helper ipv6_ext_hdr, absent from
this repository, classifies a next-header value as an IPv6 extension
header (hop-by-hop 0, routing 43, fragment 44, auth 51, none 59,
destination options 60). -/
def ipv6_ext_hdr (n : Nat) : Bool :=
  n == 0 || n == 43 || n == 44 || n == 51 || n == 59 || n == 60

def NEXTHDR_ROUTING : Nat := 43

/-- Modelled from the spec: the kernel helper ipv6_find_hdr, absent from
this repository, walks the extension-header chain looking for a Routing
Header; the walk stops at the first header that is not an extension
header.  cur is the current next-header value, rest the values of the
following headers. -/
def ipv6_find_routing : Nat → List Nat → Bool
  | cur, rest =>
    if cur == NEXTHDR_ROUTING then true
    else if ipv6_ext_hdr cur then
      match rest with
      | [] => false
      | n :: r => ipv6_find_routing n r
    else false

/-- IPv6 packet slice relevant to set_ipv6: addresses, the next-header
value of the fixed header, the next-header values of the subsequent
headers, the L4 checksum, traffic class and hop limit. -/
structure V6Pkt where
  saddr : Nat
  daddr : Nat
  nexthdr : Nat
  exts : List Nat
  l4check : Nat
  tclass : Nat
  hlimit : Nat
deriving DecidableEq, Repr

/-- Flow-key slice kept coherent by set_ipv6. -/
structure V6Key where
  src : Nat
  dst : Nat
  tos : Nat
  ttl : Nat
deriving DecidableEq, Repr

/-- Model of set_ipv6 (actions.c:458-507).  updS and updD abstract the
incremental L4 checksum corrections for a source respectively
destination address change (inet_proto_csum_replace16 via
update_ipv6_checksum); writ models make_writable.  For a destination
change the correction is skipped exactly when the extension-header walk
finds a Routing Header. -/
def set_ipv6 (updS updD : Nat → Nat) (writ : Bool) (p : V6Pkt) (k : V6Key)
    (nSrc nDst nTc nHl : Nat) : Option Nat × V6Pkt × V6Key :=
  if writ = false then (some ENOMEM, p, k)
  else
    let s1 : V6Pkt × V6Key :=
      if nSrc ≠ p.saddr then
        (⟨nSrc, p.daddr, p.nexthdr, p.exts, updS p.l4check, p.tclass, p.hlimit⟩,
         ⟨nSrc, k.dst, k.tos, k.ttl⟩)
      else (p, k)
    let p1 := s1.1
    let k1 := s1.2
    let s2 : V6Pkt × V6Key :=
      if nDst ≠ p1.daddr then
        let recalc : Bool :=
          if ipv6_ext_hdr p1.nexthdr then ! ipv6_find_routing p1.nexthdr p1.exts
          else true
        (⟨p1.saddr, nDst, p1.nexthdr, p1.exts,
          (if recalc then updD p1.l4check else p1.l4check), p1.tclass, p1.hlimit⟩,
         ⟨k1.src, nDst, k1.tos, k1.ttl⟩)
      else (p1, k1)
    let p2 := s2.1
    let k2 := s2.2
    (none,
     ⟨p2.saddr, p2.daddr, p2.nexthdr, p2.exts, p2.l4check, nTc, nHl⟩,
     ⟨k2.src, k2.dst, nTc, nHl⟩)

/-! ## The action executor and per-core state

Packets are modelled by a buffer identity (fresh identities come from a
counter in the executor state, mirroring allocation) and abstract
contents.  The flow key keeps the fields the executor itself inspects:
eth.type (zero = invalidated), recirc_id and ovs_flow_hash. -/

structure Pkt where
  pid : Nat
  contents : Nat
deriving DecidableEq, Repr

structure SwFlowKey where
  eth_type : Nat
  recirc_id : Nat
  hash : Nat
deriving DecidableEq, Repr

/-- invalidate_flow_key (actions.c:114): zero the ethernet type. -/
def invalidate_flow_key (k : SwFlowKey) : SwFlowKey :=
  ⟨0, k.recirc_id, k.hash⟩

/-- is_flow_key_valid (actions.c:119). -/
def is_flow_key_valid (k : SwFlowKey) : Bool :=
  k.eth_type != 0

/-- One attribute of an action list.  Opcodes follow the switch in
do_execute_actions.  Header mutators are abstracted at this level by
their effect f on packet contents and by the outcome e of their internal
fallible helper (none = success); push_vlan and pop_vlan additionally
carry whether the taken path invalidates the flow key.  Their per-byte
behaviour is modelled separately above.  A sample attribute carries the
outcome of the probability draw and its nested action list. -/
inductive Act where
  | output (port : Nat)
  | userspace
  | hash (basis : Nat)
  | push_mpls (f : Nat → Nat) (e : Option Nat)
  | pop_mpls (f : Nat → Nat) (e : Option Nat)
  | push_vlan (f : Nat → Nat) (inval : Bool) (e : Option Nat)
  | pop_vlan (f : Nat → Nat) (inval : Bool) (e : Option Nat)
  | recirc (rid : Nat)
  | set_field (f : Nat → Nat) (e : Option Nat)
  | sample (pass : Bool) (sacts : List Act)

/-- struct deferred_action (actions.c:47). -/
structure DefAct where
  skb : Pkt
  actions : Option (List Act)
  pkt_key : SwFlowKey

/-- struct action_fifo (actions.c:56): head is the producer index, tail
the consumer index; both only grow until action_fifo_init resets them.
The slots list holds the entries written so far, slot i at position i. -/
structure ActionFifo where
  head : Nat
  tail : Nat
  slots : List DefAct

/-- action_fifo_init (actions.c:68). -/
def action_fifo_init : ActionFifo := ⟨0, 0, []⟩

/-- action_fifo_is_empty (actions.c:74). -/
def action_fifo_is_empty (f : ActionFifo) : Bool :=
  f.head == f.tail

/-- action_fifo_get (actions.c:79): consume the slot at tail.  Reading a
slot that was never written (impossible under the queue invariant)
yields none. -/
def action_fifo_get (f : ActionFifo) : Option (DefAct × ActionFifo) :=
  if action_fifo_is_empty f then none
  else
    match f.slots.drop f.tail with
    | [] => none
    | d :: _ => some (d, ⟨f.head, f.tail + 1, f.slots⟩)

/-- action_fifo_put (actions.c:87) combined with the caller writing the
returned slot: fails once head reaches DEFERRED_ACTION_FIFO_SIZE - 1. -/
def action_fifo_put (f : ActionFifo) (d : DefAct) : Option ActionFifo :=
  if DEFERRED_ACTION_FIFO_SIZE - 1 ≤ f.head then none
  else some ⟨f.head + 1, f.tail, f.slots ++ [d]⟩

/-- Observable events of one execution: sends to a vport, buffer frees
(kfree_skb), buffer consumption (consume_skb), userspace upcalls,
deferred-queue insertions, and the two kinds of drain dispatch
(nested action-list execution vs flow re-dispatch through
ovs_dp_process_packet). -/
inductive Ev where
  | sent (port : Nat) (p : Pkt)
  | freed (p : Pkt)
  | consumed (p : Pkt)
  | upcall (p : Pkt)
  | enq (d : DefAct)
  | dispatchNested (d : DefAct)
  | dispatchFlow (d : DefAct)

/-- Environment of external collaborators: vport lookup (true = port
exists), skb_clone success per allocation attempt, ovs_flow_key_update,
and the hash computed by skb_get_hash/jhash_1word. -/
structure Env where
  ports : Nat → Bool
  cloneOk : Nat → Bool
  keyUpd : Pkt → Except Nat SwFlowKey
  hashFn : Nat → Nat → Nat

/-- Per-core mutable state threaded through the executor: the fresh
buffer-identity counter, the clone-attempt counter, the deferred-action
queue, and the exec_actions_level counter. -/
structure MSt where
  nextId : Nat
  cloneTick : Nat
  fifo : ActionFifo
  level : Nat

/-- skb_clone: on success the clone is a fresh buffer with the same
contents. -/
def skb_clone (env : Env) (st : MSt) (p : Pkt) : Option Pkt × MSt :=
  if env.cloneOk st.cloneTick then
    (some ⟨st.nextId, p.contents⟩, ⟨st.nextId + 1, st.cloneTick + 1, st.fifo, st.level⟩)
  else
    (none, ⟨st.nextId, st.cloneTick + 1, st.fifo, st.level⟩)

/-- do_output (actions.c:618): send if the vport exists, else free. -/
def do_output (env : Env) (port : Nat) (p : Pkt) : List Ev :=
  if env.ports port then [Ev.sent port p] else [Ev.freed p]

/-- output_userspace (actions.c:628): upcall to userspace; the packet is
not consumed.  The external ovs_dp_upcall is modelled as succeeding. -/
def output_userspace (p : Pkt) : Option Nat × List Ev :=
  (none, [Ev.upcall p])

/-- push_vlan (actions.c:291) at executor granularity: on failure of the
internal __vlan_put_tag the helper itself has freed the packet; on
success the contents are transformed and the key is invalidated iff the
hardware-accelerated tag had to be pushed down inline. -/
def push_vlan (p : Pkt) (k : SwFlowKey) (f : Nat → Nat) (inval : Bool)
    (e : Option Nat) : Option Nat × List Ev × Pkt × SwFlowKey :=
  match e with
  | some ec => (some ec, [Ev.freed p], p, k)
  | none =>
      (none, [], ⟨p.pid, f p.contents⟩, if inval then invalidate_flow_key k else k)

/-- The common part of add_deferred_actions as used by execute_recirc
(actions.c:826-835): enqueue q with a snapshot of key1 whose recirc_id
slot is then set to rid (the source writes the id into the queued copy
after the put); on a full queue free q and continue. -/
def recirc_defer (key1 : SwFlowKey) (rid : Nat) (q : Pkt) (st : MSt) :
    Option Nat × SwFlowKey × List Ev × MSt :=
  let d : DefAct := ⟨q, none, ⟨key1.eth_type, rid, key1.hash⟩⟩
  match action_fifo_put st.fifo d with
  | some f2 => (none, key1, [Ev.enq d], ⟨st.nextId, st.cloneTick, f2, st.level⟩)
  | none => (none, key1, [Ev.freed q], st)

/-- execute_recirc (actions.c:798): re-extract an invalidated key
(failures are returned), clone unless the attribute is last (clone OOM
skips the recirculation), then defer with actions = none. -/
def execute_recirc (env : Env) (p : Pkt) (key : SwFlowKey) (rid : Nat)
    (isLast : Bool) (st : MSt) : Option Nat × SwFlowKey × List Ev × MSt :=
  match (if is_flow_key_valid key then Except.ok key else env.keyUpd p) with
  | Except.error e => (some e, key, [], st)
  | Except.ok key1 =>
      if isLast then recirc_defer key1 rid p st
      else
        match skb_clone env st p with
        | (none, st1) => (none, key1, [], st1)
        | (some c, st1) => recirc_defer key1 rid c st1

/-- The sample fast path test (actions.c:712): a single USERSPACE
attribute. -/
def is_single_userspace : List Act → Bool
  | [Act.userspace] => true
  | _ => false

/-- sample (actions.c:679): probability gate, empty-list gate, the
single-USERSPACE fast path, then clone and defer; clone OOM and a full
deferred queue are swallowed (the latter frees the clone). -/
def sample (env : Env) (p : Pkt) (key : SwFlowKey) (pass : Bool)
    (sacts : List Act) (st : MSt) : Option Nat × List Ev × MSt :=
  if pass = false then (none, [], st)
  else if sacts.isEmpty then (none, [], st)
  else if is_single_userspace sacts then
    let r := output_userspace p
    (r.1, r.2, st)
  else
    match skb_clone env st p with
    | (none, st1) => (none, [], st1)
    | (some c, st1) =>
        let d : DefAct := ⟨c, some sacts, key⟩
        match action_fifo_put st1.fifo d with
        | some f2 => (none, [Ev.enq d], ⟨st1.nextId, st1.cloneTick, f2, st1.level⟩)
        | none => (none, [Ev.freed c], st1)

/-- The staged-output flush at the top of each loop iteration
(actions.c:858-865): if an output is pending, emit a clone to it; a
failed clone silently drops that output. -/
def flush_prev (env : Env) (p : Pkt) (prev : Option Nat) (st : MSt) :
    List Ev × MSt :=
  match prev with
  | none => ([], st)
  | some port =>
      match skb_clone env st p with
      | (some out, st1) => (do_output env port out, st1)
      | (none, st1) => ([], st1)

/-- do_execute_actions (actions.c:841), with the loop-local prev_port
made an explicit parameter (none = -1).  Returns the error status, the
event trace and the final state. -/
def do_execute_loop (env : Env) :
    Pkt → SwFlowKey → Option Nat → List Act → MSt → Option Nat × List Ev × MSt
  | p, _, prev, [], st =>
      match prev with
      | some port => (none, do_output env port p, st)
      | none => (none, [Ev.consumed p], st)
  | p, key, prev, a :: rest, st =>
      let fl := flush_prev env p prev st
      match a with
      | Act.output port =>
          let r := do_execute_loop env p key (some port) rest fl.2
          (r.1, fl.1 ++ r.2.1, r.2.2)
      | Act.userspace =>
          let r := do_execute_loop env p key none rest fl.2
          (r.1, fl.1 ++ [Ev.upcall p] ++ r.2.1, r.2.2)
      | Act.hash basis =>
          let h := env.hashFn p.contents basis
          let key1 : SwFlowKey := ⟨key.eth_type, key.recirc_id, if h = 0 then 1 else h⟩
          let r := do_execute_loop env p key1 none rest fl.2
          (r.1, fl.1 ++ r.2.1, r.2.2)
      | Act.push_mpls f e =>
          match e with
          | some ec => (some ec, fl.1 ++ [Ev.freed p], fl.2)
          | none =>
              let r := do_execute_loop env ⟨p.pid, f p.contents⟩
                         (invalidate_flow_key key) none rest fl.2
              (r.1, fl.1 ++ r.2.1, r.2.2)
      | Act.pop_mpls f e =>
          match e with
          | some ec => (some ec, fl.1 ++ [Ev.freed p], fl.2)
          | none =>
              let r := do_execute_loop env ⟨p.pid, f p.contents⟩
                         (invalidate_flow_key key) none rest fl.2
              (r.1, fl.1 ++ r.2.1, r.2.2)
      | Act.push_vlan f inval e =>
          match push_vlan p key f inval e with
          | (some ec, evs, _, _) => (some ec, fl.1 ++ evs, fl.2)
          | (none, evs, p1, key1) =>
              let r := do_execute_loop env p1 key1 none rest fl.2
              (r.1, fl.1 ++ evs ++ r.2.1, r.2.2)
      | Act.pop_vlan f inval e =>
          match e with
          | some ec => (some ec, fl.1 ++ [Ev.freed p], fl.2)
          | none =>
              let r := do_execute_loop env ⟨p.pid, f p.contents⟩
                         (if inval then invalidate_flow_key key else key) none rest fl.2
              (r.1, fl.1 ++ r.2.1, r.2.2)
      | Act.recirc rid =>
          match execute_recirc env p key rid rest.isEmpty fl.2 with
          | (er, key1, evs, st1) =>
              if rest.isEmpty then (er, fl.1 ++ evs, st1)
              else
                match er with
                | some ec => (some ec, fl.1 ++ evs ++ [Ev.freed p], st1)
                | none =>
                    let r := do_execute_loop env p key1 none rest st1
                    (r.1, fl.1 ++ evs ++ r.2.1, r.2.2)
      | Act.set_field f e =>
          match e with
          | some ec => (some ec, fl.1 ++ [Ev.freed p], fl.2)
          | none =>
              let r := do_execute_loop env ⟨p.pid, f p.contents⟩ key none rest fl.2
              (r.1, fl.1 ++ r.2.1, r.2.2)
      | Act.sample pass sacts =>
          match sample env p key pass sacts fl.2 with
          | (some ec, evs, st1) => (some ec, fl.1 ++ evs ++ [Ev.freed p], st1)
          | (none, evs, st1) =>
              let r := do_execute_loop env p key none rest st1
              (r.1, fl.1 ++ evs ++ r.2.1, r.2.2)

/-- do_execute_actions entry: prev_port starts unset. -/
def do_execute_actions (env : Env) (p : Pkt) (key : SwFlowKey)
    (acts : List Act) (st : MSt) : Option Nat × List Ev × MSt :=
  do_execute_loop env p key none acts st

/-- One drain step (actions.c:941-951): items with an action list run a
nested do_execute_actions; items without one re-enter the datapath via
the external ovs_dp_process_packet, recorded as a dispatch event. -/
def process_one (env : Env) (d : DefAct) (st : MSt) : List Ev × MSt :=
  match d.actions with
  | some acts =>
      let r := do_execute_actions env d.skb d.pkt_key acts st
      (Ev.dispatchNested d :: r.2.1, r.2.2)
  | none => ([Ev.dispatchFlow d], st)

/-- The drain do-while loop, with explicit fuel (under the queue
invariant the tail strictly increases and is bounded by the queue
capacity, so the fuel supplied by process_deferred_actions is never
exhausted). -/
def process_loop (env : Env) : Nat → MSt → List Ev × MSt
  | 0, st => ([], st)
  | fuel + 1, st =>
      if action_fifo_is_empty st.fifo then ([], st)
      else
        match action_fifo_get st.fifo with
        | none => ([], st)
        | some (d, f1) =>
            let r1 := process_one env d ⟨st.nextId, st.cloneTick, f1, st.level⟩
            let r2 := process_loop env fuel r1.2
            (r1.1 ++ r2.1, r2.2)

/-- process_deferred_actions (actions.c:932): untouched when empty,
otherwise drain until empty and reinitialize the queue. -/
def process_deferred_actions (env : Env) (st : MSt) : List Ev × MSt :=
  if action_fifo_is_empty st.fifo then ([], st)
  else
    let r := process_loop env (DEFERRED_ACTION_FIFO_SIZE - st.fifo.tail) st
    if action_fifo_is_empty r.2.fifo then
      (r.1, ⟨r.2.nextId, r.2.cloneTick, action_fifo_init, r.2.level⟩)
    else r

/-- ovs_execute_actions (actions.c:958): the loop-depth guard, the level
increment around the action-list execution, the drain performed only
when the entry-time level was zero, and the final decrement. -/
def ovs_execute_actions (env : Env) (p : Pkt) (key : SwFlowKey)
    (acts : List Act) (st : MSt) : Option Nat × List Ev × MSt :=
  let level := st.level
  if EXEC_ACTIONS_LEVEL_LIMIT ≤ level then (some ELOOP, [Ev.freed p], st)
  else
    let st1 : MSt := ⟨st.nextId, st.cloneTick, st.fifo, st.level + 1⟩
    let r := do_execute_loop env p key none acts st1
    let r2 :=
      if level = 0 then
        let d := process_deferred_actions env r.2.2
        (r.1, r.2.1 ++ d.1, d.2)
      else r
    (r2.1, r2.2.1, ⟨r2.2.2.nextId, r2.2.2.cloneTick, r2.2.2.fifo, r2.2.2.level - 1⟩)

/-! ## Trace extraction and queue invariant -/

/-- Ports and contents of the vport sends in a trace, in order. -/
def sent_list (evs : List Ev) : List (Nat × Nat) :=
  evs.filterMap fun ev =>
    match ev with
    | Ev.sent port p => some (port, p.contents)
    | _ => none

/-- Deferred items inserted into the queue during a trace, in order. -/
def enqueued (evs : List Ev) : List DefAct :=
  evs.filterMap fun ev =>
    match ev with
    | Ev.enq d => some d
    | _ => none

/-- Deferred items dispatched by a drain, in order. -/
def dispatched (evs : List Ev) : List DefAct :=
  evs.filterMap fun ev =>
    match ev with
    | Ev.dispatchNested d => some d
    | Ev.dispatchFlow d => some d
    | _ => none

/-- Number of kfree_skb events for buffer identity pid in a trace. -/
def freed_count (pid : Nat) (evs : List Ev) : Nat :=
  (evs.filter fun ev =>
    match ev with
    | Ev.freed q => q.pid == pid
    | _ => false).length

/-- The deferred items still waiting in the queue. -/
def pending_items (f : ActionFifo) : List DefAct :=
  f.slots.drop f.tail

/-- Queue invariant: every slot below head was written, the consumer
does not overtake the producer, and the producer respects the capacity
reserve enforced by action_fifo_put. -/
def FifoInv (f : ActionFifo) : Prop :=
  f.slots.length = f.head ∧ f.tail ≤ f.head ∧ f.head ≤ DEFERRED_ACTION_FIFO_SIZE - 1

/-- Relation between the executor state before and after one step: the
consumer index of the queue is untouched, the producer side grows by
exactly the enqueue events of the trace, the level is untouched, buffer
identities only move forward, and the queue invariant is preserved. -/
def StEvOk (st st1 : MSt) (evs : List Ev) : Prop :=
  st1.fifo.tail = st.fifo.tail ∧
  st1.fifo.slots = st.fifo.slots ++ enqueued evs ∧
  st1.level = st.level ∧
  st.nextId ≤ st1.nextId ∧
  (FifoInv st.fifo → FifoInv st1.fifo)

/-- What a completed drain pass guarantees: the queue ends empty, the
items dispatched are exactly the items pending at the start followed by
the items enqueued during the pass (insertion order), the level is
untouched, the invariant still holds, and each item is dispatched to a
nested execution or a flow re-dispatch according to its actions field. -/
def DrainOk (st : MSt) (evs : List Ev) (st1 : MSt) : Prop :=
  st1.fifo.head = st1.fifo.tail ∧
  dispatched evs = pending_items st.fifo ++ enqueued evs ∧
  st1.level = st.level ∧
  FifoInv st1.fifo ∧
  (∀ d, Ev.dispatchNested d ∈ evs → d.actions ≠ none) ∧
  (∀ d, Ev.dispatchFlow d ∈ evs → d.actions = none)

/-- Errors carried by the attributes of an action list (the outcome of
the fallible helper each mutator attribute calls). -/
def act_err : Act → Option Nat
  | Act.push_mpls _ e => e
  | Act.pop_mpls _ e => e
  | Act.push_vlan _ _ e => e
  | Act.pop_vlan _ _ e => e
  | Act.set_field _ e => e
  | _ => none

/-- An action list whose mutator helpers all succeed. -/
def err_free (acts : List Act) : Prop :=
  ∀ a, a ∈ acts → act_err a = none

/-! ## Specification-side definitions

These two definitions follow the words of the specification, not the
source, and are compared with the embedded code by the theorems below. -/

/-- In-order reference executor for output staging (spec 8.5): emit each
OUTPUT immediately with the packet contents current at that point;
header mutators transform the contents; nothing else emits. -/
def in_order_outputs (c : Nat) : List Act → List (Nat × Nat)
  | [] => []
  | Act.output port :: r => (port, c) :: in_order_outputs c r
  | Act.userspace :: r => in_order_outputs c r
  | Act.hash _ :: r => in_order_outputs c r
  | Act.push_mpls f _ :: r => in_order_outputs (f c) r
  | Act.pop_mpls f _ :: r => in_order_outputs (f c) r
  | Act.push_vlan f _ _ :: r => in_order_outputs (f c) r
  | Act.pop_vlan f _ _ :: r => in_order_outputs (f c) r
  | Act.recirc _ :: r => in_order_outputs c r
  | Act.set_field f _ :: r => in_order_outputs (f c) r
  | Act.sample _ _ :: r => in_order_outputs c r

/-- The outputs an execution starting with a staged port must emit:
the staged port first (with the current contents), then the in-order
outputs of the remaining attributes. -/
def staged_outputs (prev : Option Nat) (c : Nat) (acts : List Act) :
    List (Nat × Nat) :=
  match prev with
  | some q => (q, c) :: in_order_outputs c acts
  | none => in_order_outputs c acts

/-- Chain-of-re-entries scenario (spec 8.6): each entry performs the
guard test of ovs_execute_actions at its level; a surviving entry
re-enters once at level + 1, mirroring the increment done before the
action list runs.  The list records, per entry, whether the guard
dropped it; the chain ends at the first drop. -/
def reentry_chain : Nat → Nat → List Bool
  | 0, _ => []
  | n + 1, lvl =>
      if EXEC_ACTIONS_LEVEL_LIMIT ≤ lvl then [true]
      else false :: reentry_chain n (lvl + 1)

/-! ## Queue lemmas -/

theorem action_fifo_put_none_iff (f : ActionFifo) (d : DefAct) :
    action_fifo_put f d = none ↔ DEFERRED_ACTION_FIFO_SIZE - 1 ≤ f.head := by
  unfold action_fifo_put
  split <;> simp_all

theorem action_fifo_put_some (f : ActionFifo) (d : DefAct) (f1 : ActionFifo)
    (h : action_fifo_put f d = some f1) :
    f1.head = f.head + 1 ∧ f1.tail = f.tail ∧ f1.slots = f.slots ++ [d] := by
  unfold action_fifo_put at h
  split at h
  · exact absurd h (by simp)
  · cases h
    exact ⟨rfl, rfl, rfl⟩

theorem action_fifo_put_inv (f : ActionFifo) (d : DefAct) (f1 : ActionFifo)
    (hf : FifoInv f) (h : action_fifo_put f d = some f1) : FifoInv f1 := by
  unfold action_fifo_put at h
  split at h
  · exact absurd h (by simp)
  · cases h
    rcases hf with ⟨h1, h2, _⟩
    refine ⟨by simp [h1], Nat.le_succ_of_le h2, ?_⟩
    simp only [DEFERRED_ACTION_FIFO_SIZE] at *
    omega

/-! ## Trace bookkeeping lemmas -/

theorem enqueued_append (a b : List Ev) :
    enqueued (a ++ b) = enqueued a ++ enqueued b := by
  simp [enqueued]

theorem dispatched_append (a b : List Ev) :
    dispatched (a ++ b) = dispatched a ++ dispatched b := by
  simp [dispatched]

theorem sent_list_append (a b : List Ev) :
    sent_list (a ++ b) = sent_list a ++ sent_list b := by
  simp [sent_list]

theorem freed_count_append (pid : Nat) (a b : List Ev) :
    freed_count pid (a ++ b) = freed_count pid a + freed_count pid b := by
  simp [freed_count]

theorem do_output_enqueued (env : Env) (port : Nat) (p : Pkt) :
    enqueued (do_output env port p) = [] := by
  unfold do_output
  split <;> simp [enqueued]

theorem do_output_dispatched (env : Env) (port : Nat) (p : Pkt) :
    dispatched (do_output env port p) = [] := by
  unfold do_output
  split <;> simp [dispatched]

theorem stevok_nil (st : MSt) : StEvOk st st [] :=
  ⟨rfl, by simp [enqueued], rfl, Nat.le_refl _, id⟩

theorem stevok_of_eq {st st1 : MSt} (evs : List Ev) (h : st1 = st)
    (he : enqueued evs = []) : StEvOk st st1 evs := by
  subst h
  exact ⟨rfl, by simp [he], rfl, Nat.le_refl _, id⟩

theorem stevok_trans {st1 st2 st3 : MSt} {e1 e2 : List Ev}
    (h1 : StEvOk st1 st2 e1) (h2 : StEvOk st2 st3 e2) :
    StEvOk st1 st3 (e1 ++ e2) := by
  rcases h1 with ⟨a1, b1, c1, d1, i1⟩
  rcases h2 with ⟨a2, b2, c2, d2, i2⟩
  refine ⟨a2.trans a1, ?_, c2.trans c1, Nat.le_trans d1 d2, fun h => i2 (i1 h)⟩
  rw [enqueued_append, b2, b1, List.append_assoc]

theorem skb_clone_st (env : Env) (st : MSt) (p : Pkt) :
    (skb_clone env st p).2.fifo = st.fifo ∧
    (skb_clone env st p).2.level = st.level ∧
    st.nextId ≤ (skb_clone env st p).2.nextId := by
  unfold skb_clone
  split <;> exact ⟨rfl, rfl, by simp⟩

theorem skb_clone_stevok (env : Env) (st : MSt) (p : Pkt) :
    StEvOk st (skb_clone env st p).2 [] := by
  rcases skb_clone_st env st p with ⟨h1, h2, h3⟩
  exact ⟨by rw [h1], by simp [enqueued, h1], h2, h3, fun h => by rwa [h1]⟩


theorem enqueued_nil : enqueued [] = [] := rfl

theorem dispatched_nil : dispatched [] = [] := rfl

theorem stevok_no_enq {st st1 : MSt} {evs : List Ev} (h : StEvOk st st1 [])
    (he : enqueued evs = []) : StEvOk st st1 evs := by
  rcases h with ⟨a, b, c, d, i⟩
  refine ⟨a, ?_, c, d, i⟩
  rw [he, List.append_nil]
  simpa [enqueued_nil] using b

theorem flush_prev_st (env : Env) (p : Pkt) (prev : Option Nat) (st : MSt) :
    StEvOk st (flush_prev env p prev st).2 (flush_prev env p prev st).1 ∧
    dispatched (flush_prev env p prev st).1 = [] := by
  unfold flush_prev
  cases prev with
  | none => exact ⟨stevok_nil st, rfl⟩
  | some port =>
      rcases hc : skb_clone env st p with ⟨c, st1⟩
      have hcs := skb_clone_stevok env st p
      rw [hc] at hcs
      simp only [hc]
      cases c with
      | none => exact ⟨hcs, rfl⟩
      | some out =>
          exact ⟨stevok_no_enq hcs (do_output_enqueued env port out),
            do_output_dispatched env port out⟩

theorem recirc_defer_st (key1 : SwFlowKey) (rid : Nat) (q : Pkt) (st : MSt) :
    (recirc_defer key1 rid q st).1 = none ∧
    (recirc_defer key1 rid q st).2.1 = key1 ∧
    StEvOk st (recirc_defer key1 rid q st).2.2.2 (recirc_defer key1 rid q st).2.2.1 ∧
    dispatched (recirc_defer key1 rid q st).2.2.1 = [] := by
  unfold recirc_defer
  rcases h : action_fifo_put st.fifo
      (⟨q, none, ⟨key1.eth_type, rid, key1.hash⟩⟩ : DefAct) with _ | f2 <;>
    simp only [h]
  · refine ⟨?_, ?_, stevok_no_enq (stevok_nil st) rfl, ?_⟩ <;> trivial
  · rcases action_fifo_put_some _ _ _ h with ⟨h1, h2, h3⟩
    refine ⟨?_, ?_,
      ⟨h2, by simpa [enqueued] using h3, rfl, Nat.le_refl _,
        fun hf => action_fifo_put_inv _ _ _ hf h⟩, ?_⟩ <;> trivial

theorem execute_recirc_st (env : Env) (p : Pkt) (key : SwFlowKey) (rid : Nat)
    (isLast : Bool) (st : MSt) :
    StEvOk st (execute_recirc env p key rid isLast st).2.2.2
      (execute_recirc env p key rid isLast st).2.2.1 ∧
    dispatched (execute_recirc env p key rid isLast st).2.2.1 = [] := by
  unfold execute_recirc
  rcases hk : (if is_flow_key_valid key then Except.ok key else env.keyUpd p)
      with e | key1 <;> simp only [hk]
  · exact ⟨stevok_nil st, rfl⟩
  · cases isLast with
    | true =>
        simp only [if_true]
        rcases recirc_defer_st key1 rid p st with ⟨_, _, h3, h4⟩
        exact ⟨h3, h4⟩
    | false =>
        simp only [Bool.false_eq_true, if_false]
        rcases hc : skb_clone env st p with ⟨c, st1⟩
        have hcs := skb_clone_stevok env st p
        rw [hc] at hcs
        cases c with
        | none => exact ⟨hcs, rfl⟩
        | some cp =>
            rcases recirc_defer_st key1 rid cp st1 with ⟨_, _, h3, h4⟩
            exact ⟨by simpa using stevok_trans hcs h3, h4⟩

theorem sample_err_none (env : Env) (p : Pkt) (key : SwFlowKey) (pass : Bool)
    (sacts : List Act) (st : MSt) :
    (sample env p key pass sacts st).1 = none := by
  unfold sample
  split
  · rfl
  · split
    · rfl
    · split
      · rfl
      · rcases hc : skb_clone env st p with ⟨c, st1⟩
        simp only [hc]
        cases c with
        | none => rfl
        | some cp =>
            rcases h : action_fifo_put st1.fifo (⟨cp, some sacts, key⟩ : DefAct)
                with _ | f2 <;> simp only [h]

theorem sample_st (env : Env) (p : Pkt) (key : SwFlowKey) (pass : Bool)
    (sacts : List Act) (st : MSt) :
    StEvOk st (sample env p key pass sacts st).2.2 (sample env p key pass sacts st).2.1 ∧
    dispatched (sample env p key pass sacts st).2.1 = [] := by
  unfold sample
  split
  · exact ⟨stevok_nil st, rfl⟩
  · split
    · exact ⟨stevok_nil st, rfl⟩
    · split
      · exact ⟨stevok_no_enq (stevok_nil st) rfl, rfl⟩
      · rcases hc : skb_clone env st p with ⟨c, st1⟩
        have hcs := skb_clone_stevok env st p
        rw [hc] at hcs
        simp only [hc]
        cases c with
        | none => exact ⟨hcs, rfl⟩
        | some cp =>
            rcases h : action_fifo_put st1.fifo (⟨cp, some sacts, key⟩ : DefAct)
                with _ | f2 <;> simp only [h]
            · exact ⟨stevok_no_enq hcs rfl, rfl⟩
            · rcases action_fifo_put_some _ _ _ h with ⟨h1, h2, h3⟩
              refine ⟨stevok_trans hcs
                ⟨h2, by simpa [enqueued] using h3, rfl, Nat.le_refl _,
                  fun hf => action_fifo_put_inv _ _ _ hf h⟩, rfl⟩

theorem dispatched_freed (q : Pkt) : dispatched [Ev.freed q] = [] := rfl

theorem dispatched_upcall (q : Pkt) : dispatched [Ev.upcall q] = [] := rfl

theorem stevok_freed (st : MSt) (q : Pkt) : StEvOk st st [Ev.freed q] :=
  stevok_no_enq (stevok_nil st) rfl

theorem stevok_upcall (st : MSt) (q : Pkt) : StEvOk st st [Ev.upcall q] :=
  stevok_no_enq (stevok_nil st) rfl

theorem dispatched_cons_upcall (q : Pkt) (l : List Ev) :
    dispatched (Ev.upcall q :: l) = dispatched l := rfl

theorem dispatched_cons_freed (q : Pkt) (l : List Ev) :
    dispatched (Ev.freed q :: l) = dispatched l := rfl

theorem dispatched_cons_enq (d : DefAct) (l : List Ev) :
    dispatched (Ev.enq d :: l) = dispatched l := rfl

theorem do_execute_loop_st (env : Env) (acts : List Act) :
    ∀ (p : Pkt) (key : SwFlowKey) (prev : Option Nat) (st : MSt),
    StEvOk st (do_execute_loop env p key prev acts st).2.2
      (do_execute_loop env p key prev acts st).2.1 ∧
    dispatched (do_execute_loop env p key prev acts st).2.1 = [] := by
  induction acts with
  | nil =>
      intro p key prev st
      cases prev with
      | none => exact ⟨stevok_no_enq (stevok_nil st) rfl, rfl⟩
      | some port =>
          exact ⟨stevok_no_enq (stevok_nil st) (do_output_enqueued env port p),
            do_output_dispatched env port p⟩
  | cons a rest ih =>
      intro p key prev st
      rcases flush_prev_st env p prev st with ⟨hf1, hf2⟩
      cases a with
      | output port =>
          simp only [do_execute_loop]
          rcases ih p key (some port) (flush_prev env p prev st).2 with ⟨hi1, hi2⟩
          exact ⟨stevok_trans hf1 hi1, by simp [dispatched_append, hf2, hi2]⟩
      | userspace =>
          simp only [do_execute_loop]
          rcases ih p key none (flush_prev env p prev st).2 with ⟨hi1, hi2⟩
          refine ⟨?_, ?_⟩
          · exact stevok_trans (stevok_trans hf1 (stevok_upcall _ p)) hi1
          · simp [dispatched_append, hf2, hi2, dispatched_upcall, dispatched_cons_upcall]
      | hash basis =>
          simp only [do_execute_loop]
          rcases ih p ⟨key.eth_type, key.recirc_id,
              if env.hashFn p.contents basis = 0 then 1 else env.hashFn p.contents basis⟩
              none (flush_prev env p prev st).2 with ⟨hi1, hi2⟩
          exact ⟨stevok_trans hf1 hi1, by simp [dispatched_append, hf2, hi2]⟩
      | push_mpls f e =>
          cases e with
          | some ec =>
              simp only [do_execute_loop]
              exact ⟨stevok_trans hf1 (stevok_freed _ p),
                by simp [dispatched_append, hf2, dispatched_freed]⟩
          | none =>
              simp only [do_execute_loop]
              rcases ih ⟨p.pid, f p.contents⟩ (invalidate_flow_key key) none
                  (flush_prev env p prev st).2 with ⟨hi1, hi2⟩
              exact ⟨stevok_trans hf1 hi1, by simp [dispatched_append, hf2, hi2]⟩
      | pop_mpls f e =>
          cases e with
          | some ec =>
              simp only [do_execute_loop]
              exact ⟨stevok_trans hf1 (stevok_freed _ p),
                by simp [dispatched_append, hf2, dispatched_freed]⟩
          | none =>
              simp only [do_execute_loop]
              rcases ih ⟨p.pid, f p.contents⟩ (invalidate_flow_key key) none
                  (flush_prev env p prev st).2 with ⟨hi1, hi2⟩
              exact ⟨stevok_trans hf1 hi1, by simp [dispatched_append, hf2, hi2]⟩
      | push_vlan f inval e =>
          cases e with
          | some ec =>
              simp only [do_execute_loop, push_vlan]
              exact ⟨stevok_trans hf1 (stevok_freed _ p),
                by simp [dispatched_append, hf2, dispatched_freed]⟩
          | none =>
              simp only [do_execute_loop, push_vlan]
              rcases ih ⟨p.pid, f p.contents⟩
                  (if inval then invalidate_flow_key key else key) none
                  (flush_prev env p prev st).2 with ⟨hi1, hi2⟩
              refine ⟨by simpa using stevok_trans hf1 hi1, ?_⟩
              simp [dispatched_append, hf2, hi2]
      | pop_vlan f inval e =>
          cases e with
          | some ec =>
              simp only [do_execute_loop]
              exact ⟨stevok_trans hf1 (stevok_freed _ p),
                by simp [dispatched_append, hf2, dispatched_freed]⟩
          | none =>
              simp only [do_execute_loop]
              rcases ih ⟨p.pid, f p.contents⟩
                  (if inval then invalidate_flow_key key else key) none
                  (flush_prev env p prev st).2 with ⟨hi1, hi2⟩
              exact ⟨stevok_trans hf1 hi1, by simp [dispatched_append, hf2, hi2]⟩
      | recirc rid =>
          simp only [do_execute_loop]
          rcases hr : execute_recirc env p key rid rest.isEmpty
              (flush_prev env p prev st).2 with ⟨er, key1, evs, st1⟩
          have hrs := execute_recirc_st env p key rid rest.isEmpty
              (flush_prev env p prev st).2
          rw [hr] at hrs
          have hr1 : StEvOk (flush_prev env p prev st).2 st1 evs := hrs.1
          have hr2 : dispatched evs = [] := hrs.2
          simp only [hr]
          cases hrest : rest.isEmpty with
          | true =>
              simp only [if_true]
              exact ⟨stevok_trans hf1 hr1, by simp [dispatched_append, hf2, hr2]⟩
          | false =>
              simp only [Bool.false_eq_true, if_false]
              cases er with
              | some ec =>
                  refine ⟨stevok_trans (stevok_trans hf1 hr1) (stevok_freed st1 p), ?_⟩
                  simp [dispatched_append, hf2, hr2, dispatched_freed]
              | none =>
                  rcases ih p key1 none st1 with ⟨hi1, hi2⟩
                  exact ⟨stevok_trans (stevok_trans hf1 hr1) hi1,
                    by simp [dispatched_append, hf2, hr2, hi2]⟩
      | set_field f e =>
          cases e with
          | some ec =>
              simp only [do_execute_loop]
              exact ⟨stevok_trans hf1 (stevok_freed _ p),
                by simp [dispatched_append, hf2, dispatched_freed]⟩
          | none =>
              simp only [do_execute_loop]
              rcases ih ⟨p.pid, f p.contents⟩ key none
                  (flush_prev env p prev st).2 with ⟨hi1, hi2⟩
              exact ⟨stevok_trans hf1 hi1, by simp [dispatched_append, hf2, hi2]⟩
      | sample pass sacts =>
          simp only [do_execute_loop]
          rcases hsp : sample env p key pass sacts (flush_prev env p prev st).2
              with ⟨er, evs, st1⟩
          have he : er = none := by
            have h0 := sample_err_none env p key pass sacts (flush_prev env p prev st).2
            rw [hsp] at h0
            exact h0
          subst he
          have hss := sample_st env p key pass sacts (flush_prev env p prev st).2
          rw [hsp] at hss
          have hs1 : StEvOk (flush_prev env p prev st).2 st1 evs := hss.1
          have hs2 : dispatched evs = [] := hss.2
          simp only [hsp]
          rcases ih p key none st1 with ⟨hi1, hi2⟩
          exact ⟨stevok_trans (stevok_trans hf1 hs1) hi1,
            by simp [dispatched_append, hf2, hs2, hi2]⟩

/-! ## Drain lemmas -/

theorem dispatched_cons_nested (d : DefAct) (l : List Ev) :
    dispatched (Ev.dispatchNested d :: l) = d :: dispatched l := rfl

theorem dispatched_cons_flow (d : DefAct) (l : List Ev) :
    dispatched (Ev.dispatchFlow d :: l) = d :: dispatched l := rfl

theorem enqueued_cons_nested (d : DefAct) (l : List Ev) :
    enqueued (Ev.dispatchNested d :: l) = enqueued l := rfl

theorem enqueued_cons_flow (d : DefAct) (l : List Ev) :
    enqueued (Ev.dispatchFlow d :: l) = enqueued l := rfl

theorem mem_of_dispatchNested {d : DefAct} {evs : List Ev}
    (h : Ev.dispatchNested d ∈ evs) : d ∈ dispatched evs :=
  List.mem_filterMap.2 ⟨Ev.dispatchNested d, h, rfl⟩

theorem mem_of_dispatchFlow {d : DefAct} {evs : List Ev}
    (h : Ev.dispatchFlow d ∈ evs) : d ∈ dispatched evs :=
  List.mem_filterMap.2 ⟨Ev.dispatchFlow d, h, rfl⟩

theorem do_execute_actions_eq (env : Env) (p : Pkt) (key : SwFlowKey)
    (acts : List Act) (st : MSt) :
    do_execute_actions env p key acts st = do_execute_loop env p key none acts st := rfl

theorem process_loop_drain (env : Env) : ∀ (fuel : Nat) (st : MSt),
    FifoInv st.fifo →
    DEFERRED_ACTION_FIFO_SIZE - 1 - st.fifo.tail < fuel →
    DrainOk st (process_loop env fuel st).1 (process_loop env fuel st).2 := by
  intro fuel
  induction fuel with
  | zero => intro st hInv hF; exact absurd hF (Nat.not_lt_zero _)
  | succ fuel ih =>
      intro st hInv hF
      have hSZ : DEFERRED_ACTION_FIFO_SIZE = 10 := rfl
      obtain ⟨hLen, hTH, hCap⟩ := hInv
      rw [hSZ] at hCap hF
      have hInvS : FifoInv st.fifo := ⟨hLen, hTH, by rw [hSZ]; omega⟩
      by_cases hemp : action_fifo_is_empty st.fifo = true
      · have hht : st.fifo.head = st.fifo.tail := by
          simpa [action_fifo_is_empty] using hemp
        simp only [process_loop]
        rw [if_pos hemp]
        refine ⟨hht, ?_, rfl, hInvS, ?_, ?_⟩
        · have hp : pending_items st.fifo = [] := by
            apply List.drop_eq_nil_of_le
            omega
          simp [hp, dispatched_nil, enqueued_nil]
        · intro d hd; exact absurd hd (List.not_mem_nil _)
        · intro d hd; exact absurd hd (List.not_mem_nil _)
      · have hne : st.fifo.head ≠ st.fifo.tail := by
          simpa [action_fifo_is_empty] using hemp
        have htlt : st.fifo.tail < st.fifo.head := by omega
        rcases hdrop : st.fifo.slots.drop st.fifo.tail with _ | ⟨d, rest1⟩
        · exfalso
          have hlen2 := congrArg List.length hdrop
          simp [List.length_drop] at hlen2
          omega
        · have hrest : st.fifo.slots.drop (st.fifo.tail + 1) = rest1 := by
            have h1 : st.fifo.slots.drop (st.fifo.tail + 1) =
                (st.fifo.slots.drop st.fifo.tail).drop 1 := by
              rw [List.drop_drop, Nat.add_comm]
            rw [h1, hdrop]
            rfl
          have hpend : pending_items st.fifo = d :: rest1 := hdrop
          have hget : action_fifo_get st.fifo =
              some (d, ⟨st.fifo.head, st.fifo.tail + 1, st.fifo.slots⟩) := by
            unfold action_fifo_get
            rw [if_neg hemp, hdrop]
          simp only [process_loop]
          rw [if_neg hemp]
          simp only [hget]
          have hInv2 : FifoInv
              (⟨st.nextId, st.cloneTick,
                ⟨st.fifo.head, st.fifo.tail + 1, st.fifo.slots⟩, st.level⟩ : MSt).fifo :=
            ⟨hLen, by show st.fifo.tail + 1 ≤ st.fifo.head; omega,
              by show st.fifo.head ≤ DEFERRED_ACTION_FIFO_SIZE - 1; rw [hSZ]; omega⟩
          rcases hact : d.actions with _ | acts
          · -- flow re-dispatch item
            simp only [process_one, hact]
            have hF2 : DEFERRED_ACTION_FIFO_SIZE - 1 -
                (⟨st.nextId, st.cloneTick,
                  ⟨st.fifo.head, st.fifo.tail + 1, st.fifo.slots⟩, st.level⟩ : MSt).fifo.tail
                < fuel := by
              rw [hSZ]
              show 10 - 1 - (st.fifo.tail + 1) < fuel
              omega
            obtain ⟨k1, k2, k3, k4, k5, k6⟩ := ih _ hInv2 hF2
            refine ⟨k1, ?_, k3, k4, ?_, ?_⟩
            · rw [dispatched_append, enqueued_append, dispatched_cons_flow,
                dispatched_nil, enqueued_cons_flow, enqueued_nil, k2, hpend]
              have hpend2 : pending_items
                  (⟨st.nextId, st.cloneTick,
                    ⟨st.fifo.head, st.fifo.tail + 1, st.fifo.slots⟩, st.level⟩ : MSt).fifo
                  = rest1 := hrest
              rw [hpend2]
              simp
            · intro d2 hd2
              rcases List.mem_append.1 hd2 with h | h
              · simp at h
              · exact k5 d2 h
            · intro d2 hd2
              rcases List.mem_append.1 hd2 with h | h
              · have hde : d2 = d := by
                  have h2 := List.mem_singleton.1 h
                  cases h2
                  rfl
                rw [hde, hact]
              · exact k6 d2 h
          · -- nested action-list item
            simp only [process_one, hact, do_execute_actions_eq]
            obtain ⟨e1, e2, e3, e4, e5⟩ :=
              (do_execute_loop_st env acts d.skb d.pkt_key none
                ⟨st.nextId, st.cloneTick,
                  ⟨st.fifo.head, st.fifo.tail + 1, st.fifo.slots⟩, st.level⟩).1
            have hdisp0 :=
              (do_execute_loop_st env acts d.skb d.pkt_key none
                ⟨st.nextId, st.cloneTick,
                  ⟨st.fifo.head, st.fifo.tail + 1, st.fifo.slots⟩, st.level⟩).2
            have hInv3 : FifoInv
                (do_execute_loop env d.skb d.pkt_key none acts
                  ⟨st.nextId, st.cloneTick,
                    ⟨st.fifo.head, st.fifo.tail + 1, st.fifo.slots⟩, st.level⟩).2.2.fifo :=
              e5 hInv2
            have hF3 : DEFERRED_ACTION_FIFO_SIZE - 1 -
                (do_execute_loop env d.skb d.pkt_key none acts
                  ⟨st.nextId, st.cloneTick,
                    ⟨st.fifo.head, st.fifo.tail + 1, st.fifo.slots⟩, st.level⟩).2.2.fifo.tail
                < fuel := by
              rw [hSZ, e1]
              show 10 - 1 - (st.fifo.tail + 1) < fuel
              omega
            obtain ⟨k1, k2, k3, k4, k5, k6⟩ := ih _ hInv3 hF3
            have hpend3 : pending_items
                (do_execute_loop env d.skb d.pkt_key none acts
                  ⟨st.nextId, st.cloneTick,
                    ⟨st.fifo.head, st.fifo.tail + 1, st.fifo.slots⟩, st.level⟩).2.2.fifo =
                rest1 ++ enqueued
                  (do_execute_loop env d.skb d.pkt_key none acts
                    ⟨st.nextId, st.cloneTick,
                      ⟨st.fifo.head, st.fifo.tail + 1, st.fifo.slots⟩, st.level⟩).2.1 := by
              unfold pending_items
              rw [e2, e1]
              show (st.fifo.slots ++ _).drop (st.fifo.tail + 1) = _
              rw [List.drop_append_eq_append_drop]
              have h0 : st.fifo.tail + 1 - st.fifo.slots.length = 0 := by omega
              rw [h0, List.drop_zero, hrest]
            refine ⟨k1, ?_, k3.trans e3, k4, ?_, ?_⟩
            · rw [dispatched_append, enqueued_append, dispatched_cons_nested,
                enqueued_cons_nested, hdisp0, k2, hpend3, hpend]
              simp
            · intro d2 hd2
              rcases List.mem_append.1 hd2 with h | h
              · rcases List.mem_cons.1 h with h | h
                · cases h
                  rw [hact]
                  intro hc
                  cases hc
                · exfalso
                  have hmem := mem_of_dispatchNested h
                  rw [hdisp0] at hmem
                  exact absurd hmem (List.not_mem_nil _)
              · exact k5 d2 h
            · intro d2 hd2
              rcases List.mem_append.1 hd2 with h | h
              · rcases List.mem_cons.1 h with h | h
                · cases h
                · exfalso
                  have hmem := mem_of_dispatchFlow h
                  rw [hdisp0] at hmem
                  exact absurd hmem (List.not_mem_nil _)
              · exact k6 d2 h

theorem process_deferred_actions_drain (env : Env) (st : MSt)
    (hInv : FifoInv st.fifo) :
    DrainOk st (process_deferred_actions env st).1 (process_deferred_actions env st).2 ∧
    (action_fifo_is_empty st.fifo = false →
      (process_deferred_actions env st).2.fifo = action_fifo_init) ∧
    (action_fifo_is_empty st.fifo = true →
      process_deferred_actions env st = ([], st)) := by
  have hSZ : DEFERRED_ACTION_FIFO_SIZE = 10 := rfl
  obtain ⟨hLen, hTH, hCap⟩ := hInv
  rw [hSZ] at hCap
  have hInvS : FifoInv st.fifo := ⟨hLen, hTH, by rw [hSZ]; omega⟩
  by_cases hemp : action_fifo_is_empty st.fifo = true
  · have hht : st.fifo.head = st.fifo.tail := by
      simpa [action_fifo_is_empty] using hemp
    unfold process_deferred_actions
    rw [if_pos hemp]
    refine ⟨⟨hht, ?_, rfl, hInvS, ?_, ?_⟩, ?_, fun _ => rfl⟩
    · have hp : pending_items st.fifo = [] := by
        apply List.drop_eq_nil_of_le
        omega
      simp [hp, dispatched_nil, enqueued_nil]
    · intro d hd; exact absurd hd (List.not_mem_nil _)
    · intro d hd; exact absurd hd (List.not_mem_nil _)
    · intro hf; rw [hemp] at hf; cases hf
  · have hF : DEFERRED_ACTION_FIFO_SIZE - 1 - st.fifo.tail <
        DEFERRED_ACTION_FIFO_SIZE - st.fifo.tail := by
      rw [hSZ]
      omega
    obtain ⟨k1, k2, k3, k4, k5, k6⟩ :=
      process_loop_drain env (DEFERRED_ACTION_FIFO_SIZE - st.fifo.tail) st hInvS hF
    have hre : action_fifo_is_empty
        (process_loop env (DEFERRED_ACTION_FIFO_SIZE - st.fifo.tail) st).2.fifo = true := by
      simp [action_fifo_is_empty, k1]
    unfold process_deferred_actions
    rw [if_neg hemp, if_pos hre]
    refine ⟨⟨rfl, k2, k3, ⟨rfl, Nat.le_refl _, Nat.zero_le _⟩, k5, k6⟩,
      fun _ => rfl, ?_⟩
    intro hf
    exact absurd hf hemp

/-! ## Claim C4: UDP zero-checksum handling -/

/-- C4 counterexample.  The claim states that no mangled-zero
substitution is made when the checksum mode is partial, and that a
zero UDP checksum is updated when in partial mode.  The code says
otherwise on both counts: for an address change in partial mode with
stored checksum 5 and an incremental result of 0, set_ip_addr stores
CSUM_MANGLED_0 (not the 0 the claim predicts); and set_udp_port with a
zero stored checksum in partial mode performs no update at all. -/
theorem set_udp_csum_partial_cex :
    (set_ip_addr_udp_check true 5 true 0).1 = CSUM_MANGLED_0 ∧
    ¬ (set_ip_addr_udp_check true 5 true 0).1 = 0 ∧
    (set_udp_port_check 0 true 7).2 = false := by
  refine ⟨rfl, ?_, rfl⟩
  intro h
  simp [set_ip_addr_udp_check, CSUM_MANGLED_0] at h

/-- C4 (amended): in set_udp_port the checksum is corrected exactly when
it is nonzero and the mode is not partial, with a zero incremental
result replaced by the all-ones mangled-zero value, and otherwise (zero
checksum, or partial mode) only the port is written; in
set_ip_addr/update_ipv6_checksum the UDP checksum is corrected exactly
when it is nonzero or the mode is partial, and the mangled-zero
substitution applies after every such correction, including in partial
mode, so a corrected checksum is never stored as zero. -/
theorem set_udp_csum_policy :
    (∀ check upd : Nat, check ≠ 0 → upd = 0 →
      (set_udp_port_check check false upd).1 = CSUM_MANGLED_0) ∧
    (∀ check upd : Nat, check ≠ 0 → upd ≠ 0 →
      (set_udp_port_check check false upd).1 = upd) ∧
    (∀ check upd : Nat,
      (set_udp_port_check check true upd).2 = false ∧
      (set_udp_port_check check true upd).1 = check) ∧
    (∀ (upd : Nat) (hw : Bool), (set_udp_port_check 0 hw upd).2 = false) ∧
    (∀ (check upd : Nat) (hw : Bool),
      ((set_ip_addr_udp_check true check hw upd).2 = true ↔ (check ≠ 0 ∨ hw = true))) ∧
    (∀ (check upd : Nat) (hw : Bool), (check ≠ 0 ∨ hw = true) → upd = 0 →
      (set_ip_addr_udp_check true check hw upd).1 = CSUM_MANGLED_0) ∧
    (∀ (check upd : Nat) (hw : Bool), (check ≠ 0 ∨ hw = true) →
      (set_ip_addr_udp_check true check hw upd).1 ≠ 0) := by
  refine ⟨?_, ?_, ?_, ?_, ?_, ?_, ?_⟩
  · intro check upd hc hu
    simp [set_udp_port_check, hc, hu]
  · intro check upd hc hu
    simp [set_udp_port_check, hc, hu]
  · intro check upd
    constructor <;> simp [set_udp_port_check]
  · intro upd hw
    simp [set_udp_port_check]
  · intro check upd hw
    constructor
    · intro h
      by_contra hc
      push_neg at hc
      simp [set_ip_addr_udp_check, hc.1, hc.2] at h
    · intro h
      rcases h with h | h <;> simp [set_ip_addr_udp_check, h]
  · intro check upd hw h hu
    rcases h with h | h <;> simp [set_ip_addr_udp_check, h, hu]
  · intro check upd hw h
    rcases h with h | h <;>
      simp [set_ip_addr_udp_check, h, CSUM_MANGLED_0] <;>
      split <;> simp_all [CSUM_MANGLED_0]

/-- C4 amended-claim witness at concrete inputs. -/
theorem set_udp_csum_policy_w :
    (set_udp_port_check 5 false 0).1 = CSUM_MANGLED_0 ∧
    (set_ip_addr_udp_check true 0 true 0).1 = CSUM_MANGLED_0 ∧
    (set_udp_port_check 0 true 3).2 = false :=
  ⟨set_udp_csum_policy.1 5 0 (by decide) rfl,
   set_udp_csum_policy.2.2.2.2.2.1 0 0 true (Or.inr rfl) rfl,
   set_udp_csum_policy.2.2.2.1 3 true⟩

/-! ## Claim C5: SCTP checksum error carry-through -/

/-- C5: a successful set_sctp preserves the XOR difference between the
stored checksum and the correct checksum: with the new ports in place,
stored XOR correct is unchanged, so a previously-correct checksum stays
correct and a previously-corrupt one stays detectably corrupt. -/
theorem set_sctp_error_carry (crc : Nat → Nat → Nat) (writ : Bool)
    (h : SctpHdr) (ksrc kdst : Nat)
    (hok : (set_sctp crc writ h ksrc kdst).1 = none) :
    (set_sctp crc writ h ksrc kdst).2.checksum ^^^
        crc (set_sctp crc writ h ksrc kdst).2.source
          (set_sctp crc writ h ksrc kdst).2.dest =
      h.checksum ^^^ crc h.source h.dest ∧
    (h.checksum = crc h.source h.dest →
      (set_sctp crc writ h ksrc kdst).2.checksum =
        crc (set_sctp crc writ h ksrc kdst).2.source
          (set_sctp crc writ h ksrc kdst).2.dest) ∧
    (h.checksum ≠ crc h.source h.dest →
      (set_sctp crc writ h ksrc kdst).2.checksum ≠
        crc (set_sctp crc writ h ksrc kdst).2.source
          (set_sctp crc writ h ksrc kdst).2.dest) := by
  cases writ with
  | false => exact absurd hok (by simp [set_sctp])
  | true =>
      by_cases hp : ksrc ≠ h.source ∨ kdst ≠ h.dest
      · have hres : set_sctp crc true h ksrc kdst =
            (none, ⟨ksrc, kdst,
              Nat.xor (Nat.xor h.checksum (crc h.source h.dest)) (crc ksrc kdst)⟩) := by
          unfold set_sctp
          rw [if_neg (by simp), if_pos hp]
          rfl
        rw [hres]
        have hx : ((h.checksum ^^^ crc h.source h.dest) ^^^ crc ksrc kdst)
            ^^^ crc ksrc kdst = h.checksum ^^^ crc h.source h.dest := by
          rw [Nat.xor_assoc, Nat.xor_self, Nat.xor_zero]
        refine ⟨hx, ?_, ?_⟩
        · intro hc
          show (h.checksum ^^^ crc h.source h.dest) ^^^ crc ksrc kdst
            = crc ksrc kdst
          rw [hc, Nat.xor_self, Nat.zero_xor]
        · intro hc hcontra
          apply hc
          have h0 : ((h.checksum ^^^ crc h.source h.dest) ^^^ crc ksrc kdst)
              ^^^ crc ksrc kdst = crc ksrc kdst ^^^ crc ksrc kdst :=
            congrArg (fun z => z ^^^ crc ksrc kdst) hcontra
          rw [hx, Nat.xor_self] at h0
          exact Nat.xor_eq_zero.1 h0
      · have hres : set_sctp crc true h ksrc kdst = (none, h) := by
          unfold set_sctp
          rw [if_neg (by simp), if_neg hp]
        rw [hres]
        exact ⟨rfl, fun hc => hc, fun hc => hc⟩

/-- C5 witness: a corrupt checksum (3 instead of the correct 1 + 2)
stays off by the same XOR delta after the ports become 4 and 5. -/
theorem set_sctp_error_carry_w :
    (set_sctp (fun a b => a + b) true ⟨1, 2, 7⟩ 4 5).2.checksum ^^^
        (fun a b => a + b) (set_sctp (fun a b => a + b) true ⟨1, 2, 7⟩ 4 5).2.source
          (set_sctp (fun a b => a + b) true ⟨1, 2, 7⟩ 4 5).2.dest =
      7 ^^^ 3 :=
  (set_sctp_error_carry (fun a b => a + b) true ⟨1, 2, 7⟩ 4 5 rfl).1

/-! ## Claim C6: IPv6 destination change and the Routing Header -/

theorem ext_of_find_routing : ∀ (cur : Nat) (rest : List Nat),
    ipv6_find_routing cur rest = true → ipv6_ext_hdr cur = true := by
  intro cur rest hfind
  unfold ipv6_find_routing at hfind
  by_cases h43 : (cur == NEXTHDR_ROUTING) = true
  · have hc : cur = 43 := by simpa [NEXTHDR_ROUTING] using h43
    simp [ipv6_ext_hdr, hc]
  · rw [if_neg h43] at hfind
    by_cases hext : ipv6_ext_hdr cur = true
    · exact hext
    · rw [if_neg hext] at hfind
      cases hfind

/-- C6: a set_ipv6 destination-address change skips the incremental L4
checksum correction exactly when the extension-header walk finds a
Routing Header; without one the correction is applied; either way the
address bytes and the key are updated. -/
theorem set_ipv6_routing_hdr (updS updD : Nat → Nat) (p : V6Pkt) (k : V6Key)
    (nDst nTc nHl : Nat) (hdst : nDst ≠ p.daddr) :
    (ipv6_find_routing p.nexthdr p.exts = true →
      (set_ipv6 updS updD true p k p.saddr nDst nTc nHl).2.1.l4check = p.l4check ∧
      (set_ipv6 updS updD true p k p.saddr nDst nTc nHl).2.1.daddr = nDst ∧
      (set_ipv6 updS updD true p k p.saddr nDst nTc nHl).2.2.dst = nDst) ∧
    (ipv6_find_routing p.nexthdr p.exts = false →
      (set_ipv6 updS updD true p k p.saddr nDst nTc nHl).2.1.l4check = updD p.l4check ∧
      (set_ipv6 updS updD true p k p.saddr nDst nTc nHl).2.1.daddr = nDst ∧
      (set_ipv6 updS updD true p k p.saddr nDst nTc nHl).2.2.dst = nDst) := by
  constructor
  · intro hfind
    have hext := ext_of_find_routing p.nexthdr p.exts hfind
    refine ⟨?_, ?_, ?_⟩ <;>
      simp [set_ipv6, hdst, hext, hfind]
  · intro hfind
    by_cases hext : ipv6_ext_hdr p.nexthdr = true
    · refine ⟨?_, ?_, ?_⟩ <;>
        simp [set_ipv6, hdst, hext, hfind]
    · refine ⟨?_, ?_, ?_⟩ <;>
        simp [set_ipv6, hdst, hext, hfind]

/-- C6 witness: with the extension chain Hop-by-Hop then Routing the
checksum is untouched; with Hop-by-Hop then TCP it is corrected. -/
theorem set_ipv6_routing_hdr_w :
    (set_ipv6 (fun c => c + 1) (fun c => c + 1) true
        ⟨1, 2, 0, [43], 7, 0, 0⟩ ⟨1, 2, 0, 0⟩ 1 3 0 0).2.1.l4check = 7 ∧
    (set_ipv6 (fun c => c + 1) (fun c => c + 1) true
        ⟨1, 2, 0, [6], 7, 0, 0⟩ ⟨1, 2, 0, 0⟩ 1 3 0 0).2.1.l4check = 8 :=
  ⟨((set_ipv6_routing_hdr (fun c => c + 1) (fun c => c + 1)
      ⟨1, 2, 0, [43], 7, 0, 0⟩ ⟨1, 2, 0, 0⟩ 3 0 0 (by decide)).1 (by decide)).1,
   ((set_ipv6_routing_hdr (fun c => c + 1) (fun c => c + 1)
      ⟨1, 2, 0, [6], 7, 0, 0⟩ ⟨1, 2, 0, 0⟩ 3 0 0 (by decide)).2 (by decide)).1⟩

/-! ## Claim C2: the reserve-one producer bound -/

/-- C2: a producer put fails exactly when head has reached
DEFERRED_ACTION_FIFO_SIZE - 1 = 9 (so at most nine items fit between
drains, each successful put advancing head by one), and when the put
fails both sample and execute_recirc free the packet they were about to
enqueue and return success, leaving the queue untouched. -/
theorem action_fifo_put_reserve :
    (∀ (f : ActionFifo) (d : DefAct),
      action_fifo_put f d = none ↔ DEFERRED_ACTION_FIFO_SIZE - 1 ≤ f.head) ∧
    (∀ (f : ActionFifo) (d : DefAct) (f1 : ActionFifo),
      action_fifo_put f d = some f1 → f1.head = f.head + 1) ∧
    (∀ (env : Env) (p : Pkt) (key : SwFlowKey) (sacts : List Act) (st : MSt),
      env.cloneOk st.cloneTick = true →
      sacts.isEmpty = false →
      is_single_userspace sacts = false →
      DEFERRED_ACTION_FIFO_SIZE - 1 ≤ st.fifo.head →
      sample env p key true sacts st =
        (none, [Ev.freed ⟨st.nextId, p.contents⟩],
          ⟨st.nextId + 1, st.cloneTick + 1, st.fifo, st.level⟩)) ∧
    (∀ (env : Env) (p : Pkt) (key : SwFlowKey) (rid : Nat) (st : MSt),
      is_flow_key_valid key = true →
      DEFERRED_ACTION_FIFO_SIZE - 1 ≤ st.fifo.head →
      execute_recirc env p key rid true st = (none, key, [Ev.freed p], st)) := by
  refine ⟨?_, ?_, ?_, ?_⟩
  · exact action_fifo_put_none_iff
  · intro f d f1 h
    exact (action_fifo_put_some f d f1 h).1
  · intro env p key sacts st hclone hne hsingle hfull
    unfold sample
    rw [if_neg (by simp), if_neg (by simp [hne]), if_neg (by simp [hsingle])]
    have hc : skb_clone env st p =
        (some ⟨st.nextId, p.contents⟩,
          ⟨st.nextId + 1, st.cloneTick + 1, st.fifo, st.level⟩) := by
      unfold skb_clone
      rw [if_pos hclone]
    rw [hc]
    have hput : action_fifo_put
        (⟨st.nextId + 1, st.cloneTick + 1, st.fifo, st.level⟩ : MSt).fifo
        ⟨⟨st.nextId, p.contents⟩, some sacts, key⟩ = none := by
      rw [action_fifo_put_none_iff]
      exact hfull
    simp only [hput]
  · intro env p key rid st hval hfull
    unfold execute_recirc
    rw [if_pos hval]
    show recirc_defer key rid p st = (none, key, [Ev.freed p], st)
    unfold recirc_defer
    have hput : action_fifo_put st.fifo
        ⟨p, none, ⟨key.eth_type, rid, key.hash⟩⟩ = none := by
      rw [action_fifo_put_none_iff]
      exact hfull
    simp only [hput]

/-- C2 witness: a queue with head = 9 rejects the put; a last recirc on
such a queue frees the original packet and still returns success. -/
theorem action_fifo_put_reserve_w :
    action_fifo_put ⟨9, 0, []⟩ ⟨⟨0, 0⟩, none, ⟨0, 0, 0⟩⟩ = none ∧
    execute_recirc ⟨fun _ => true, fun _ => true, fun _ => Except.ok ⟨1, 0, 0⟩,
        fun _ _ => 0⟩ ⟨1, 7⟩ ⟨5, 0, 0⟩ 3 true ⟨2, 0, ⟨9, 0, []⟩, 0⟩ =
      (none, ⟨5, 0, 0⟩, [Ev.freed ⟨1, 7⟩], ⟨2, 0, ⟨9, 0, []⟩, 0⟩) :=
  ⟨(action_fifo_put_reserve.1 ⟨9, 0, []⟩ ⟨⟨0, 0⟩, none, ⟨0, 0, 0⟩⟩).2 (by decide),
   action_fifo_put_reserve.2.2.2 _ ⟨1, 7⟩ ⟨5, 0, 0⟩ 3 ⟨2, 0, ⟨9, 0, []⟩, 0⟩
     rfl (by decide)⟩

/-! ## Claim C10: missing vport on output -/

theorem skb_clone_ports_eq (pm : Nat → Bool) (env : Env) (st : MSt) (p : Pkt) :
    skb_clone ⟨pm, env.cloneOk, env.keyUpd, env.hashFn⟩ st p = skb_clone env st p := rfl

theorem sample_ports_eq (pm : Nat → Bool) (env : Env) (p : Pkt) (key : SwFlowKey)
    (pass : Bool) (sacts : List Act) (st : MSt) :
    sample ⟨pm, env.cloneOk, env.keyUpd, env.hashFn⟩ p key pass sacts st =
      sample env p key pass sacts st := rfl

theorem execute_recirc_ports_eq (pm : Nat → Bool) (env : Env) (p : Pkt)
    (key : SwFlowKey) (rid : Nat) (isLast : Bool) (st : MSt) :
    execute_recirc ⟨pm, env.cloneOk, env.keyUpd, env.hashFn⟩ p key rid isLast st =
      execute_recirc env p key rid isLast st := rfl

theorem flush_prev_ports_snd (pm : Nat → Bool) (env : Env) (p : Pkt)
    (prev : Option Nat) (st : MSt) :
    (flush_prev ⟨pm, env.cloneOk, env.keyUpd, env.hashFn⟩ p prev st).2 =
      (flush_prev env p prev st).2 := by
  unfold flush_prev
  cases prev with
  | none => rfl
  | some port =>
      rw [skb_clone_ports_eq]
      rcases h : skb_clone env st p with ⟨c, st1⟩
      cases c <;> rfl

theorem do_execute_loop_ports (pm : Nat → Bool) (env : Env) (acts : List Act) :
    ∀ (p : Pkt) (key : SwFlowKey) (prev : Option Nat) (st : MSt),
    (do_execute_loop ⟨pm, env.cloneOk, env.keyUpd, env.hashFn⟩ p key prev acts st).1 =
      (do_execute_loop env p key prev acts st).1 ∧
    (do_execute_loop ⟨pm, env.cloneOk, env.keyUpd, env.hashFn⟩ p key prev acts st).2.2 =
      (do_execute_loop env p key prev acts st).2.2 := by
  induction acts with
  | nil =>
      intro p key prev st
      cases prev <;> exact ⟨rfl, rfl⟩
  | cons a rest ih =>
      intro p key prev st
      cases a with
      | output port =>
          simp only [do_execute_loop, flush_prev_ports_snd]
          exact ih p key (some port) (flush_prev env p prev st).2
      | userspace =>
          simp only [do_execute_loop, flush_prev_ports_snd]
          exact ih p key none (flush_prev env p prev st).2
      | hash basis =>
          simp only [do_execute_loop, flush_prev_ports_snd]
          exact ih p _ none (flush_prev env p prev st).2
      | push_mpls f e =>
          cases e with
          | some ec =>
              simp only [do_execute_loop, flush_prev_ports_snd]
              constructor <;> trivial
          | none =>
              simp only [do_execute_loop, flush_prev_ports_snd]
              exact ih _ _ none (flush_prev env p prev st).2
      | pop_mpls f e =>
          cases e with
          | some ec =>
              simp only [do_execute_loop, flush_prev_ports_snd]
              constructor <;> trivial
          | none =>
              simp only [do_execute_loop, flush_prev_ports_snd]
              exact ih _ _ none (flush_prev env p prev st).2
      | push_vlan f inval e =>
          cases e with
          | some ec =>
              simp only [do_execute_loop, flush_prev_ports_snd, push_vlan]
              constructor <;> trivial
          | none =>
              simp only [do_execute_loop, flush_prev_ports_snd, push_vlan]
              exact ih _ _ none (flush_prev env p prev st).2
      | pop_vlan f inval e =>
          cases e with
          | some ec =>
              simp only [do_execute_loop, flush_prev_ports_snd]
              constructor <;> trivial
          | none =>
              simp only [do_execute_loop, flush_prev_ports_snd]
              exact ih _ _ none (flush_prev env p prev st).2
      | recirc rid =>
          simp only [do_execute_loop, flush_prev_ports_snd, execute_recirc_ports_eq]
          rcases hr : execute_recirc env p key rid rest.isEmpty
              (flush_prev env p prev st).2 with ⟨er, key1, evs, st1⟩
          simp only [hr]
          cases hrest : rest.isEmpty with
          | true => constructor <;> trivial
          | false =>
              cases er with
              | some ec => constructor <;> trivial
              | none => exact ih p key1 none st1
      | set_field f e =>
          cases e with
          | some ec =>
              simp only [do_execute_loop, flush_prev_ports_snd]
              constructor <;> trivial
          | none =>
              simp only [do_execute_loop, flush_prev_ports_snd]
              exact ih _ _ none (flush_prev env p prev st).2
      | sample pass sacts =>
          simp only [do_execute_loop, flush_prev_ports_snd, sample_ports_eq]
          rcases hsp : sample env p key pass sacts (flush_prev env p prev st).2
              with ⟨er, evs, st1⟩
          cases er with
          | some ec => constructor <;> trivial
          | none => exact ih p key none st1

/-- C10: when the vport lookup fails, do_output frees the packet and
nothing else; and neither the executor result nor its final state
depends on the vport table at all, so a failed lookup surfaces no error
and execution continues exactly as with any other table. -/
theorem do_output_missing_vport :
    (∀ (env : Env) (port : Nat) (p : Pkt), env.ports port = false →
      do_output env port p = [Ev.freed p]) ∧
    (∀ (pm : Nat → Bool) (env : Env) (p : Pkt) (key : SwFlowKey)
        (prev : Option Nat) (acts : List Act) (st : MSt),
      (do_execute_loop ⟨pm, env.cloneOk, env.keyUpd, env.hashFn⟩ p key prev acts st).1 =
        (do_execute_loop env p key prev acts st).1 ∧
      (do_execute_loop ⟨pm, env.cloneOk, env.keyUpd, env.hashFn⟩ p key prev acts st).2.2 =
        (do_execute_loop env p key prev acts st).2.2) := by
  refine ⟨?_, ?_⟩
  · intro env port p h
    unfold do_output
    rw [h]
    rfl
  · intro pm env p key prev acts st
    exact do_execute_loop_ports pm env acts p key prev st

/-- C10 witness: a single OUTPUT to a missing port frees the clone-free
original silently and the run still succeeds. -/
theorem do_output_missing_vport_w :
    do_output ⟨fun _ => false, fun _ => true, fun _ => Except.ok ⟨1, 0, 0⟩,
        fun _ _ => 0⟩ 3 ⟨1, 7⟩ = [Ev.freed ⟨1, 7⟩] ∧
    (do_execute_loop ⟨fun _ => false, fun _ => true, fun _ => Except.ok ⟨1, 0, 0⟩,
        fun _ _ => 0⟩ ⟨1, 7⟩ ⟨5, 0, 0⟩ none [Act.output 3] ⟨2, 0, ⟨0, 0, []⟩, 0⟩).1 =
      (do_execute_loop ⟨fun _ => true, fun _ => true, fun _ => Except.ok ⟨1, 0, 0⟩,
        fun _ _ => 0⟩ ⟨1, 7⟩ ⟨5, 0, 0⟩ none [Act.output 3] ⟨2, 0, ⟨0, 0, []⟩, 0⟩).1 :=
  ⟨do_output_missing_vport.1 _ 3 ⟨1, 7⟩ rfl,
   (do_output_missing_vport.2 (fun _ => false)
      ⟨fun _ => true, fun _ => true, fun _ => Except.ok ⟨1, 0, 0⟩, fun _ _ => 0⟩
      ⟨1, 7⟩ ⟨5, 0, 0⟩ none [Act.output 3] ⟨2, 0, ⟨0, 0, []⟩, 0⟩).1⟩

/-! ## Claim C1: the loop-depth guard -/

theorem process_loop_level (env : Env) : ∀ (fuel : Nat) (st : MSt),
    (process_loop env fuel st).2.level = st.level := by
  intro fuel
  induction fuel with
  | zero => intro st; rfl
  | succ fuel ih =>
      intro st
      by_cases hemp : action_fifo_is_empty st.fifo = true
      · simp only [process_loop]
        rw [if_pos hemp]
      · simp only [process_loop]
        rw [if_neg hemp]
        rcases hget : action_fifo_get st.fifo with _ | ⟨d, f1⟩
        · simp only [hget]
        · simp only [hget]
          rcases hact : d.actions with _ | acts
          · simp only [process_one, hact]
            exact ih _
          · simp only [process_one, hact, do_execute_actions_eq]
            have hE := ((do_execute_loop_st env acts d.skb d.pkt_key none
                ⟨st.nextId, st.cloneTick, f1, st.level⟩).1).2.2.1
            exact (ih _).trans hE

theorem process_deferred_level (env : Env) (st : MSt) :
    (process_deferred_actions env st).2.level = st.level := by
  unfold process_deferred_actions
  by_cases hemp : action_fifo_is_empty st.fifo = true
  · rw [if_pos hemp]
  · rw [if_neg hemp]
    by_cases hre : action_fifo_is_empty
        (process_loop env (DEFERRED_ACTION_FIFO_SIZE - st.fifo.tail) st).2.fifo = true
    · rw [if_pos hre]
      exact process_loop_level env _ st
    · rw [if_neg hre]
      exact process_loop_level env _ st

/-- C1: the top-level entry point drops the packet and returns the Loop
error, touching nothing else, exactly when the per-core level read at
entry has reached EXEC_ACTIONS_LEVEL_LIMIT = 4; below the limit it runs
the action list with the level incremented and restores the entry level
before returning; consequently, in a chain of nested re-entries starting
from depth 0 (each surviving entry re-entering at its level plus one)
the first dropped entry is exactly the fourth nested re-entry. -/
theorem ovs_execute_actions_level_guard :
    (∀ (env : Env) (p : Pkt) (key : SwFlowKey) (acts : List Act) (st : MSt),
      EXEC_ACTIONS_LEVEL_LIMIT ≤ st.level →
      ovs_execute_actions env p key acts st = (some ELOOP, [Ev.freed p], st)) ∧
    (∀ (env : Env) (p : Pkt) (key : SwFlowKey) (acts : List Act) (st : MSt),
      st.level < EXEC_ACTIONS_LEVEL_LIMIT →
      (ovs_execute_actions env p key acts st).1 =
        (do_execute_loop env p key none acts
          ⟨st.nextId, st.cloneTick, st.fifo, st.level + 1⟩).1 ∧
      (ovs_execute_actions env p key acts st).2.2.level = st.level) ∧
    (∀ n : Nat, reentry_chain (n + 5) 0 = [false, false, false, false, true]) ∧
    (∀ lvl : Nat, EXEC_ACTIONS_LEVEL_LIMIT ≤ lvl ↔ reentry_chain 1 lvl = [true]) := by
  refine ⟨?_, ?_, ?_, ?_⟩
  · intro env p key acts st h
    unfold ovs_execute_actions
    rw [if_pos h]
  · intro env p key acts st h
    simp only [ovs_execute_actions]
    rw [if_neg (Nat.not_le.2 h)]
    by_cases hl : st.level = 0
    · rw [if_pos hl]
      refine ⟨rfl, ?_⟩
      show (process_deferred_actions env _).2.level - 1 = st.level
      rw [process_deferred_level]
      have hE := ((do_execute_loop_st env acts p key none
        ⟨st.nextId, st.cloneTick, st.fifo, st.level + 1⟩).1).2.2.1
      rw [hE]
      exact Nat.succ_sub_one st.level
    · rw [if_neg hl]
      refine ⟨rfl, ?_⟩
      have hE := ((do_execute_loop_st env acts p key none
        ⟨st.nextId, st.cloneTick, st.fifo, st.level + 1⟩).1).2.2.1
      show (do_execute_loop env p key none acts
        ⟨st.nextId, st.cloneTick, st.fifo, st.level + 1⟩).2.2.level - 1 = st.level
      rw [hE]
      exact Nat.succ_sub_one st.level
  · intro n
    simp [reentry_chain, EXEC_ACTIONS_LEVEL_LIMIT]
  · intro lvl
    by_cases h4 : EXEC_ACTIONS_LEVEL_LIMIT ≤ lvl
    · simp [reentry_chain, h4]
    · simp [reentry_chain, h4]

/-- C1 witness: at entry level 4 the packet is freed and ELOOP returned;
a five-entry chain from depth 0 drops exactly the fourth re-entry. -/
theorem ovs_execute_actions_level_guard_w :
    ovs_execute_actions ⟨fun _ => true, fun _ => true,
        fun _ => Except.ok ⟨1, 0, 0⟩, fun _ _ => 0⟩ ⟨1, 7⟩ ⟨5, 0, 0⟩ []
        ⟨0, 0, ⟨0, 0, []⟩, 4⟩ =
      (some ELOOP, [Ev.freed ⟨1, 7⟩], ⟨0, 0, ⟨0, 0, []⟩, 4⟩) ∧
    reentry_chain 5 0 = [false, false, false, false, true] :=
  ⟨ovs_execute_actions_level_guard.1 _ ⟨1, 7⟩ ⟨5, 0, 0⟩ []
      ⟨0, 0, ⟨0, 0, []⟩, 4⟩ (by decide),
   ovs_execute_actions_level_guard.2.2.1 0⟩

/-! ## Claim C8: the drain is performed only by the outermost call -/

/-- C8: an executor invocation whose entry level is nonzero leaves the
queue exactly as the action-list execution left it (no drain); the
outermost invocation (entry level zero, queue initially empty as
between packets) ends with head and tail both zero; and a drain over a
queue satisfying the invariant dispatches exactly the pending items
followed by the items enqueued during the drain, in insertion order,
sending items with an action list to a nested execution and items
without one to flow re-dispatch, and reinitializes the queue. -/
theorem process_deferred_drain_spec :
    (∀ (env : Env) (p : Pkt) (key : SwFlowKey) (acts : List Act) (st : MSt),
      0 < st.level → st.level < EXEC_ACTIONS_LEVEL_LIMIT →
      (ovs_execute_actions env p key acts st).2.2.fifo =
        (do_execute_loop env p key none acts
          ⟨st.nextId, st.cloneTick, st.fifo, st.level + 1⟩).2.2.fifo) ∧
    (∀ (env : Env) (p : Pkt) (key : SwFlowKey) (acts : List Act) (st : MSt),
      st.level = 0 → st.fifo = action_fifo_init →
      (ovs_execute_actions env p key acts st).2.2.fifo.head = 0 ∧
      (ovs_execute_actions env p key acts st).2.2.fifo.tail = 0) ∧
    (∀ (env : Env) (st : MSt), FifoInv st.fifo →
      dispatched (process_deferred_actions env st).1 =
        pending_items st.fifo ++ enqueued (process_deferred_actions env st).1 ∧
      (action_fifo_is_empty st.fifo = false →
        (process_deferred_actions env st).2.fifo = action_fifo_init) ∧
      (∀ d, Ev.dispatchNested d ∈ (process_deferred_actions env st).1 →
        d.actions ≠ none) ∧
      (∀ d, Ev.dispatchFlow d ∈ (process_deferred_actions env st).1 →
        d.actions = none)) := by
  refine ⟨?_, ?_, ?_⟩
  · intro env p key acts st h0 h4
    simp only [ovs_execute_actions]
    rw [if_neg (Nat.not_le.2 h4), if_neg (Nat.pos_iff_ne_zero.1 h0)]
  · intro env p key acts st hlvl hfifo
    simp only [ovs_execute_actions]
    rw [if_neg (by rw [hlvl]; decide), if_pos hlvl]
    obtain ⟨e1, e2, e3, e4, e5⟩ :=
      (do_execute_loop_st env acts p key none
        ⟨st.nextId, st.cloneTick, st.fifo, st.level + 1⟩).1
    have hInv2 : FifoInv
        (do_execute_loop env p key none acts
          ⟨st.nextId, st.cloneTick, st.fifo, st.level + 1⟩).2.2.fifo := by
      apply e5
      show FifoInv st.fifo
      rw [hfifo]
      exact ⟨rfl, Nat.le_refl _, Nat.zero_le _⟩
    obtain ⟨⟨k1, _, _, _, _, _⟩, k7, k8⟩ :=
      process_deferred_actions_drain env _ hInv2
    by_cases hre : action_fifo_is_empty
        (do_execute_loop env p key none acts
          ⟨st.nextId, st.cloneTick, st.fifo, st.level + 1⟩).2.2.fifo = true
    · have hq := k8 hre
      show (process_deferred_actions env _).2.fifo.head = 0 ∧
        (process_deferred_actions env _).2.fifo.tail = 0
      rw [hq]
      have hht : (do_execute_loop env p key none acts
          ⟨st.nextId, st.cloneTick, st.fifo, st.level + 1⟩).2.2.fifo.head =
          (do_execute_loop env p key none acts
          ⟨st.nextId, st.cloneTick, st.fifo, st.level + 1⟩).2.2.fifo.tail := by
        simpa [action_fifo_is_empty] using hre
      have htl : (do_execute_loop env p key none acts
          ⟨st.nextId, st.cloneTick, st.fifo, st.level + 1⟩).2.2.fifo.tail = 0 := by
        rw [e1, hfifo]
        rfl
      exact ⟨hht.trans htl, htl⟩
    · have hq := k7 (by
        cases hb : action_fifo_is_empty
          (do_execute_loop env p key none acts
            ⟨st.nextId, st.cloneTick, st.fifo, st.level + 1⟩).2.2.fifo
        · rfl
        · exact absurd hb hre)
      show (process_deferred_actions env _).2.fifo.head = 0 ∧
        (process_deferred_actions env _).2.fifo.tail = 0
      rw [hq]
      exact ⟨rfl, rfl⟩
  · intro env st hInv
    obtain ⟨⟨_, k2, _, _, k5, k6⟩, k7, _⟩ :=
      process_deferred_actions_drain env st hInv
    exact ⟨k2, k7, k5, k6⟩

/-- C8 witness: draining a queue holding one recirculation item
dispatches exactly that item to flow re-dispatch and resets the queue;
an outermost run over an empty queue ends with head = tail = 0. -/
theorem process_deferred_drain_spec_w :
    dispatched (process_deferred_actions
        ⟨fun _ => true, fun _ => true, fun _ => Except.ok ⟨1, 0, 0⟩, fun _ _ => 0⟩
        ⟨0, 0, ⟨1, 0, [⟨⟨5, 3⟩, none, ⟨1, 9, 0⟩⟩]⟩, 1⟩).1 =
      pending_items (⟨1, 0, [⟨⟨5, 3⟩, none, ⟨1, 9, 0⟩⟩]⟩ : ActionFifo) ++
        enqueued (process_deferred_actions
          ⟨fun _ => true, fun _ => true, fun _ => Except.ok ⟨1, 0, 0⟩, fun _ _ => 0⟩
          ⟨0, 0, ⟨1, 0, [⟨⟨5, 3⟩, none, ⟨1, 9, 0⟩⟩]⟩, 1⟩).1 ∧
    (ovs_execute_actions
        ⟨fun _ => true, fun _ => true, fun _ => Except.ok ⟨1, 0, 0⟩, fun _ _ => 0⟩
        ⟨1, 7⟩ ⟨5, 0, 0⟩ [] ⟨2, 0, action_fifo_init, 0⟩).2.2.fifo.head = 0 :=
  ⟨(process_deferred_drain_spec.2.2
      ⟨fun _ => true, fun _ => true, fun _ => Except.ok ⟨1, 0, 0⟩, fun _ _ => 0⟩
      ⟨0, 0, ⟨1, 0, [⟨⟨5, 3⟩, none, ⟨1, 9, 0⟩⟩]⟩, 1⟩
      ⟨rfl, by decide, by decide⟩).1,
   (process_deferred_drain_spec.2.1
      ⟨fun _ => true, fun _ => true, fun _ => Except.ok ⟨1, 0, 0⟩, fun _ _ => 0⟩
      ⟨1, 7⟩ ⟨5, 0, 0⟩ [] ⟨2, 0, action_fifo_init, 0⟩ rfl rfl).1⟩

/-! ## Claim C7: recirculation -/

/-- C7: execute_recirc re-extracts an invalidated flow key and returns a
re-extraction failure as its error, leaving everything untouched; when
the attribute is not last, a failed clone silently skips the
recirculation and execution continues on the original packet; a
successful clone is enqueued as a deferred item whose key snapshot has
recirc_id set and whose actions field is none; and when the attribute is
last the executor returns immediately with execute_recirc's status and
events, performing no further action on the packet. -/
theorem execute_recirc_spec :
    (∀ (env : Env) (p : Pkt) (key : SwFlowKey) (rid : Nat) (isLast : Bool)
        (st : MSt) (e : Nat),
      is_flow_key_valid key = false → env.keyUpd p = Except.error e →
      execute_recirc env p key rid isLast st = (some e, key, [], st)) ∧
    (∀ (env : Env) (p : Pkt) (key : SwFlowKey) (rid : Nat) (st : MSt)
        (key1 : SwFlowKey),
      (if is_flow_key_valid key then Except.ok key else env.keyUpd p) =
        Except.ok key1 →
      env.cloneOk st.cloneTick = false →
      execute_recirc env p key rid false st =
        (none, key1, [], ⟨st.nextId, st.cloneTick + 1, st.fifo, st.level⟩)) ∧
    (∀ (env : Env) (p : Pkt) (key : SwFlowKey) (rid : Nat) (st : MSt)
        (key1 : SwFlowKey),
      (if is_flow_key_valid key then Except.ok key else env.keyUpd p) =
        Except.ok key1 →
      env.cloneOk st.cloneTick = true →
      st.fifo.head < DEFERRED_ACTION_FIFO_SIZE - 1 →
      execute_recirc env p key rid false st =
        (none, key1,
          [Ev.enq ⟨⟨st.nextId, p.contents⟩, none, ⟨key1.eth_type, rid, key1.hash⟩⟩],
          ⟨st.nextId + 1, st.cloneTick + 1,
            ⟨st.fifo.head + 1, st.fifo.tail, st.fifo.slots ++
              [⟨⟨st.nextId, p.contents⟩, none, ⟨key1.eth_type, rid, key1.hash⟩⟩]⟩,
            st.level⟩)) ∧
    (∀ (env : Env) (p : Pkt) (key : SwFlowKey) (rid : Nat) (prev : Option Nat)
        (st : MSt),
      do_execute_loop env p key prev [Act.recirc rid] st =
        ((execute_recirc env p key rid true (flush_prev env p prev st).2).1,
         (flush_prev env p prev st).1 ++
           (execute_recirc env p key rid true (flush_prev env p prev st).2).2.2.1,
         (execute_recirc env p key rid true (flush_prev env p prev st).2).2.2.2)) := by
  refine ⟨?_, ?_, ?_, ?_⟩
  · intro env p key rid isLast st e hval hupd
    unfold execute_recirc
    rw [hval]
    simp only [Bool.false_eq_true, if_false, hupd]
  · intro env p key rid st key1 hok hclone
    unfold execute_recirc
    rw [hok]
    simp only [Bool.false_eq_true, if_false]
    unfold skb_clone
    rw [if_neg (by rw [hclone]; exact Bool.false_ne_true)]
  · intro env p key rid st key1 hok hclone hroom
    unfold execute_recirc
    rw [hok]
    simp only [Bool.false_eq_true, if_false]
    unfold skb_clone
    rw [if_pos hclone]
    show recirc_defer key1 rid ⟨st.nextId, p.contents⟩
      ⟨st.nextId + 1, st.cloneTick + 1, st.fifo, st.level⟩ = _
    unfold recirc_defer
    unfold action_fifo_put
    have hroom2 : ¬ (DEFERRED_ACTION_FIFO_SIZE - 1 ≤
        (⟨st.nextId + 1, st.cloneTick + 1, st.fifo, st.level⟩ : MSt).fifo.head) :=
      Nat.not_le.2 hroom
    simp [hroom2]
  · intro env p key rid prev st
    simp only [do_execute_loop, List.isEmpty_nil]
    rcases her : execute_recirc env p key rid true (flush_prev env p prev st).2
        with ⟨er, key1, evs, st1⟩
    simp [her]

/-- C7 witness: with an invalidated key whose re-extraction fails with
code 12, execute_recirc returns error 12; with a valid key, room in the
queue and a working clone, the deferred item carries actions = none and
the recirculation id. -/
theorem execute_recirc_spec_w :
    execute_recirc ⟨fun _ => true, fun _ => true, fun _ => Except.error 12,
        fun _ _ => 0⟩ ⟨1, 7⟩ ⟨0, 0, 0⟩ 3 true ⟨2, 0, ⟨0, 0, []⟩, 0⟩ =
      (some 12, ⟨0, 0, 0⟩, [], ⟨2, 0, ⟨0, 0, []⟩, 0⟩) ∧
    execute_recirc ⟨fun _ => true, fun _ => true, fun _ => Except.ok ⟨1, 0, 0⟩,
        fun _ _ => 0⟩ ⟨1, 7⟩ ⟨5, 0, 0⟩ 3 false ⟨2, 0, ⟨0, 0, []⟩, 0⟩ =
      (none, ⟨5, 0, 0⟩, [Ev.enq ⟨⟨2, 7⟩, none, ⟨5, 3, 0⟩⟩],
        ⟨3, 1, ⟨1, 0, [⟨⟨2, 7⟩, none, ⟨5, 3, 0⟩⟩]⟩, 0⟩) :=
  ⟨execute_recirc_spec.1 _ ⟨1, 7⟩ ⟨0, 0, 0⟩ 3 true ⟨2, 0, ⟨0, 0, []⟩, 0⟩ 12 rfl rfl,
   execute_recirc_spec.2.2.1 _ ⟨1, 7⟩ ⟨5, 0, 0⟩ 3 ⟨2, 0, ⟨0, 0, []⟩, 0⟩ ⟨5, 0, 0⟩
     rfl rfl (by decide)⟩

/-! ## Claim C9: mutator errors free the packet exactly once -/

theorem flush_prev_freed_count (env : Env) (p : Pkt) (prev : Option Nat)
    (st : MSt) (h : p.pid < st.nextId) :
    freed_count p.pid (flush_prev env p prev st).1 = 0 := by
  unfold flush_prev
  cases prev with
  | none => rfl
  | some port =>
      unfold skb_clone
      by_cases hc : env.cloneOk st.cloneTick = true
      · rw [if_pos hc]
        unfold do_output
        by_cases hp : env.ports port = true
        · simp [freed_count, hp]
        · have hne : st.nextId ≠ p.pid := by omega
          simp [freed_count, hp, hne]
      · rw [if_neg hc]
        rfl

/-- C9: a mutator attribute whose helper fails mid-loop makes the
executor free the packet exactly once and return that error, executing
nothing further; for push_mpls, pop_mpls, pop_vlan and set the free is
performed by the executor, while for push_vlan the helper itself has
freed the packet and the executor returns the error immediately without
freeing again. -/
theorem executor_error_frees_once (env : Env) (p : Pkt) (key : SwFlowKey)
    (prev : Option Nat) (rest : List Act) (st : MSt) (f : Nat → Nat) (e : Nat)
    (inval : Bool) (hpid : p.pid < st.nextId) :
    ((do_execute_loop env p key prev (Act.set_field f (some e) :: rest) st).1 = some e ∧
     freed_count p.pid
       (do_execute_loop env p key prev (Act.set_field f (some e) :: rest) st).2.1 = 1) ∧
    ((do_execute_loop env p key prev (Act.push_mpls f (some e) :: rest) st).1 = some e ∧
     freed_count p.pid
       (do_execute_loop env p key prev (Act.push_mpls f (some e) :: rest) st).2.1 = 1) ∧
    ((do_execute_loop env p key prev (Act.pop_mpls f (some e) :: rest) st).1 = some e ∧
     freed_count p.pid
       (do_execute_loop env p key prev (Act.pop_mpls f (some e) :: rest) st).2.1 = 1) ∧
    ((do_execute_loop env p key prev (Act.pop_vlan f inval (some e) :: rest) st).1 = some e ∧
     freed_count p.pid
       (do_execute_loop env p key prev (Act.pop_vlan f inval (some e) :: rest) st).2.1 = 1) ∧
    ((do_execute_loop env p key prev (Act.push_vlan f inval (some e) :: rest) st).1 = some e ∧
     freed_count p.pid
       (do_execute_loop env p key prev (Act.push_vlan f inval (some e) :: rest) st).2.1 = 1 ∧
     (do_execute_loop env p key prev (Act.push_vlan f inval (some e) :: rest) st).2.1 =
       (flush_prev env p prev st).1 ++ (push_vlan p key f inval (some e)).2.1 ∧
     (push_vlan p key f inval (some e)).2.1 = [Ev.freed p]) := by
  have hfl := flush_prev_freed_count env p prev st hpid
  have hone : freed_count p.pid [Ev.freed p] = 1 := by
    simp [freed_count]
  refine ⟨⟨rfl, ?_⟩, ⟨rfl, ?_⟩, ⟨rfl, ?_⟩, ⟨rfl, ?_⟩, ⟨rfl, ?_, rfl, rfl⟩⟩ <;>
    simp only [do_execute_loop, push_vlan] <;>
    rw [freed_count_append, hfl, hone]

/-- C9 witness: a failing set mutator yields error 12 with exactly one
free of the original packet. -/
theorem executor_error_frees_once_w :
    (do_execute_loop ⟨fun _ => true, fun _ => true, fun _ => Except.ok ⟨1, 0, 0⟩,
        fun _ _ => 0⟩ ⟨1, 7⟩ ⟨5, 0, 0⟩ none
        [Act.set_field (fun c => c) (some 12)] ⟨2, 0, ⟨0, 0, []⟩, 0⟩).1 = some 12 ∧
    freed_count 1 (do_execute_loop ⟨fun _ => true, fun _ => true,
        fun _ => Except.ok ⟨1, 0, 0⟩, fun _ _ => 0⟩ ⟨1, 7⟩ ⟨5, 0, 0⟩ none
        [Act.set_field (fun c => c) (some 12)] ⟨2, 0, ⟨0, 0, []⟩, 0⟩).2.1 = 1 :=
  (executor_error_frees_once _ ⟨1, 7⟩ ⟨5, 0, 0⟩ none [] ⟨2, 0, ⟨0, 0, []⟩, 0⟩
    (fun c => c) 12 false (by decide)).1

/-! ## Claim C3: output staging -/

theorem sent_list_cons_sent (port : Nat) (pk : Pkt) (l : List Ev) :
    sent_list (Ev.sent port pk :: l) = (port, pk.contents) :: sent_list l := rfl

theorem sent_list_cons_upcall (pk : Pkt) (l : List Ev) :
    sent_list (Ev.upcall pk :: l) = sent_list l := rfl

theorem sent_list_cons_freed (pk : Pkt) (l : List Ev) :
    sent_list (Ev.freed pk :: l) = sent_list l := rfl

theorem sent_list_cons_enq (d : DefAct) (l : List Ev) :
    sent_list (Ev.enq d :: l) = sent_list l := rfl

theorem mem_of_sent {port : Nat} {pk : Pkt} {evs : List Ev}
    (h : Ev.sent port pk ∈ evs) : (port, pk.contents) ∈ sent_list evs :=
  List.mem_filterMap.2 ⟨Ev.sent port pk, h, rfl⟩

theorem err_free_cons {a : Act} {l : List Act} (h : err_free (a :: l)) :
    act_err a = none ∧ err_free l :=
  ⟨h a (List.mem_cons_self a l), fun b hb => h b (List.mem_cons_of_mem a hb)⟩

theorem staged_outputs_eq (prev : Option Nat) (c : Nat) (acts : List Act) :
    staged_outputs prev c acts =
      (match prev with | some q => [(q, c)] | none => []) ++
        in_order_outputs c acts := by
  cases prev <;> rfl

theorem flush_prev_ok (env : Env) (p : Pkt) (q : Nat) (st : MSt)
    (hclone : env.cloneOk st.cloneTick = true) (hport : env.ports q = true) :
    flush_prev env p (some q) st =
      ([Ev.sent q ⟨st.nextId, p.contents⟩],
        ⟨st.nextId + 1, st.cloneTick + 1, st.fifo, st.level⟩) := by
  unfold flush_prev skb_clone do_output
  rw [if_pos hclone]
  simp only [hport, if_true]

theorem flush_prev_sent (env : Env) (p : Pkt) (prev : Option Nat) (st : MSt)
    (hclone : ∀ n, env.cloneOk n = true) (hports : ∀ q, env.ports q = true) :
    sent_list (flush_prev env p prev st).1 =
      (match prev with | some q => [(q, p.contents)] | none => []) := by
  cases prev with
  | none => rfl
  | some q =>
      rw [flush_prev_ok env p q st (hclone st.cloneTick) (hports q)]
      rfl

theorem recirc_defer_sent (key1 : SwFlowKey) (rid : Nat) (q : Pkt) (st : MSt) :
    sent_list (recirc_defer key1 rid q st).2.2.1 = [] := by
  unfold recirc_defer
  rcases h : action_fifo_put st.fifo
      (⟨q, none, ⟨key1.eth_type, rid, key1.hash⟩⟩ : DefAct) with _ | f2 <;>
    simp only [h] <;> rfl

theorem execute_recirc_ok (env : Env) (p : Pkt) (key : SwFlowKey) (rid : Nat)
    (isLast : Bool) (st : MSt)
    (hkey : ∀ q, ∃ k, env.keyUpd q = Except.ok k) :
    (execute_recirc env p key rid isLast st).1 = none ∧
    sent_list (execute_recirc env p key rid isLast st).2.2.1 = [] := by
  unfold execute_recirc
  have hok : ∃ k, (if is_flow_key_valid key then Except.ok key
      else env.keyUpd p) = Except.ok k := by
    by_cases hv : is_flow_key_valid key = true
    · exact ⟨key, by rw [if_pos hv]⟩
    · obtain ⟨k, hk⟩ := hkey p
      exact ⟨k, by rw [if_neg hv, hk]⟩
  obtain ⟨k, hk⟩ := hok
  rw [hk]
  cases isLast with
  | true =>
      simp only [if_true]
      exact ⟨(recirc_defer_st k rid p st).1, recirc_defer_sent k rid p st⟩
  | false =>
      simp only [Bool.false_eq_true, if_false]
      rcases hc : skb_clone env st p with ⟨c, st1⟩
      cases c with
      | none => exact ⟨rfl, rfl⟩
      | some cp => exact ⟨(recirc_defer_st k rid cp st1).1, recirc_defer_sent k rid cp st1⟩

theorem sample_sent (env : Env) (p : Pkt) (key : SwFlowKey) (pass : Bool)
    (sacts : List Act) (st : MSt) :
    sent_list (sample env p key pass sacts st).2.1 = [] := by
  unfold sample
  split
  · rfl
  · split
    · rfl
    · split
      · rfl
      · rcases hc : skb_clone env st p with ⟨c, st1⟩
        simp only [hc]
        cases c with
        | none => rfl
        | some cp =>
            rcases h : action_fifo_put st1.fifo (⟨cp, some sacts, key⟩ : DefAct)
                with _ | f2 <;> simp only [h] <;> rfl

theorem sent_list_nil : sent_list [] = [] := rfl

theorem do_execute_loop_trace (env : Env)
    (hports : ∀ q, env.ports q = true)
    (hclone : ∀ n, env.cloneOk n = true)
    (hkey : ∀ q, ∃ k, env.keyUpd q = Except.ok k) :
    ∀ (acts : List Act) (p : Pkt) (key : SwFlowKey) (prev : Option Nat) (st : MSt),
    err_free acts →
    sent_list (do_execute_loop env p key prev acts st).2.1 =
      staged_outputs prev p.contents acts := by
  intro acts
  induction acts with
  | nil =>
      intro p key prev st _
      cases prev with
      | none => rfl
      | some q =>
          show sent_list (do_output env q p) = [(q, p.contents)]
          unfold do_output
          rw [if_pos (hports q)]
          rfl
  | cons a rest ih =>
      intro p key prev st herr
      obtain ⟨ha, hrest⟩ := err_free_cons herr
      have hfs := flush_prev_sent env p prev st hclone hports
      rw [staged_outputs_eq]
      cases a with
      | output port =>
          simp only [do_execute_loop]
          rw [sent_list_append, hfs,
            ih p key (some port) (flush_prev env p prev st).2 hrest,
            staged_outputs_eq]
          simp [in_order_outputs]
      | userspace =>
          simp only [do_execute_loop]
          rw [sent_list_append, sent_list_append, hfs,
            ih p key none (flush_prev env p prev st).2 hrest, staged_outputs_eq]
          simp [in_order_outputs, sent_list]
      | hash basis =>
          simp only [do_execute_loop]
          rw [sent_list_append, hfs,
            ih p ⟨key.eth_type, key.recirc_id,
              if env.hashFn p.contents basis = 0 then 1
              else env.hashFn p.contents basis⟩ none
              (flush_prev env p prev st).2 hrest,
            staged_outputs_eq]
          simp [in_order_outputs]
      | push_mpls f e =>
          cases e with
          | some ec => cases ha
          | none =>
              simp only [do_execute_loop]
              rw [sent_list_append, hfs,
                ih ⟨p.pid, f p.contents⟩ (invalidate_flow_key key) none
                  (flush_prev env p prev st).2 hrest, staged_outputs_eq]
              simp [in_order_outputs]
      | pop_mpls f e =>
          cases e with
          | some ec => cases ha
          | none =>
              simp only [do_execute_loop]
              rw [sent_list_append, hfs,
                ih ⟨p.pid, f p.contents⟩ (invalidate_flow_key key) none
                  (flush_prev env p prev st).2 hrest, staged_outputs_eq]
              simp [in_order_outputs]
      | push_vlan f inval e =>
          cases e with
          | some ec => cases ha
          | none =>
              simp only [do_execute_loop, push_vlan]
              rw [sent_list_append, sent_list_append, hfs,
                ih ⟨p.pid, f p.contents⟩
                  (if inval then invalidate_flow_key key else key) none
                  (flush_prev env p prev st).2 hrest, staged_outputs_eq]
              simp [in_order_outputs, sent_list_nil]
      | pop_vlan f inval e =>
          cases e with
          | some ec => cases ha
          | none =>
              simp only [do_execute_loop]
              rw [sent_list_append, hfs,
                ih ⟨p.pid, f p.contents⟩
                  (if inval then invalidate_flow_key key else key) none
                  (flush_prev env p prev st).2 hrest, staged_outputs_eq]
              simp [in_order_outputs]
      | recirc rid =>
          simp only [do_execute_loop]
          obtain ⟨hok, hsent⟩ := execute_recirc_ok env p key rid rest.isEmpty
            (flush_prev env p prev st).2 hkey
          rcases hr : execute_recirc env p key rid rest.isEmpty
              (flush_prev env p prev st).2 with ⟨er, key1, evs, st1⟩
          rw [hr] at hok hsent
          have hok2 : er = none := hok
          subst hok2
          have hsent2 : sent_list evs = [] := hsent
          cases hrest2 : rest.isEmpty with
          | true =>
              simp only [if_true]
              have hre : rest = [] := by
                cases rest
                · rfl
                · cases hrest2
              subst hre
              rw [sent_list_append, hfs, hsent2]
              simp [in_order_outputs]
          | false =>
              simp only [Bool.false_eq_true, if_false]
              rw [sent_list_append, sent_list_append, hfs, hsent2,
                ih p key1 none st1 hrest, staged_outputs_eq]
              simp [in_order_outputs]
      | set_field f e =>
          cases e with
          | some ec => cases ha
          | none =>
              simp only [do_execute_loop]
              rw [sent_list_append, hfs,
                ih ⟨p.pid, f p.contents⟩ key none
                  (flush_prev env p prev st).2 hrest, staged_outputs_eq]
              simp [in_order_outputs]
      | sample pass sacts =>
          simp only [do_execute_loop]
          have hsent := sample_sent env p key pass sacts (flush_prev env p prev st).2
          have herrs := sample_err_none env p key pass sacts (flush_prev env p prev st).2
          rcases hsp : sample env p key pass sacts (flush_prev env p prev st).2
              with ⟨er, evs, st1⟩
          rw [hsp] at hsent herrs
          have he : er = none := herrs
          subst he
          have hsent2 : sent_list evs = [] := hsent
          rw [sent_list_append, sent_list_append, hfs, hsent2,
            ih p key none st1 hrest, staged_outputs_eq]
          simp [in_order_outputs]

theorem no_sent_of_sent_list_nil {evs : List Ev} (h : sent_list evs = [])
    {port : Nat} {pk : Pkt} (hm : Ev.sent port pk ∈ evs) : False := by
  have hx := mem_of_sent hm
  rw [h] at hx
  exact absurd hx (List.not_mem_nil _)

theorem flush_sent_pid (env : Env) (p : Pkt) (prev : Option Nat) (st : MSt)
    (h : p.pid < st.nextId) :
    ∀ (port : Nat) (pk : Pkt), Ev.sent port pk ∈ (flush_prev env p prev st).1 →
      pk.pid ≠ p.pid := by
  cases prev with
  | none =>
      intro port pk hm
      exact absurd hm (List.not_mem_nil _)
  | some q =>
      intro port pk hm
      by_cases hc : env.cloneOk st.cloneTick = true
      · have hfe : flush_prev env p (some q) st =
            (do_output env q ⟨st.nextId, p.contents⟩,
              ⟨st.nextId + 1, st.cloneTick + 1, st.fifo, st.level⟩) := by
          simp [flush_prev, skb_clone, hc]
        rw [hfe] at hm
        unfold do_output at hm
        by_cases hp : env.ports q = true
        · rw [if_pos hp] at hm
          have h2 := List.mem_singleton.1 hm
          cases h2
          show st.nextId ≠ p.pid
          omega
        · rw [if_neg hp] at hm
          simp at hm
      · have hfe : flush_prev env p (some q) st =
            ([], ⟨st.nextId, st.cloneTick + 1, st.fifo, st.level⟩) := by
          simp [flush_prev, skb_clone, hc]
        rw [hfe] at hm
        exact absurd hm (List.not_mem_nil _)

theorem do_execute_loop_sample_step (env : Env) (p : Pkt) (key : SwFlowKey)
    (prev : Option Nat) (pass : Bool) (sacts rest : List Act) (st : MSt) :
    do_execute_loop env p key prev (Act.sample pass sacts :: rest) st =
      ((do_execute_loop env p key none rest
          (sample env p key pass sacts (flush_prev env p prev st).2).2.2).1,
       (flush_prev env p prev st).1 ++
         (sample env p key pass sacts (flush_prev env p prev st).2).2.1 ++
         (do_execute_loop env p key none rest
           (sample env p key pass sacts (flush_prev env p prev st).2).2.2).2.1,
       (do_execute_loop env p key none rest
         (sample env p key pass sacts (flush_prev env p prev st).2).2.2).2.2) := by
  simp only [do_execute_loop]
  rcases hsp : sample env p key pass sacts (flush_prev env p prev st).2
      with ⟨er, evs, st1⟩
  have he : er = none := by
    have h0 := sample_err_none env p key pass sacts (flush_prev env p prev st).2
    rw [hsp] at h0
    exact h0
  subst he
  rfl

theorem do_execute_loop_recirc_step (env : Env) (p : Pkt) (key : SwFlowKey)
    (prev : Option Nat) (rid : Nat) (rest : List Act) (st : MSt)
    (hkey : ∀ q, ∃ k, env.keyUpd q = Except.ok k)
    (hne : rest.isEmpty = false) :
    do_execute_loop env p key prev (Act.recirc rid :: rest) st =
      ((do_execute_loop env p
          (execute_recirc env p key rid rest.isEmpty (flush_prev env p prev st).2).2.1
          none rest
          (execute_recirc env p key rid rest.isEmpty
            (flush_prev env p prev st).2).2.2.2).1,
       (flush_prev env p prev st).1 ++
         (execute_recirc env p key rid rest.isEmpty
           (flush_prev env p prev st).2).2.2.1 ++
         (do_execute_loop env p
           (execute_recirc env p key rid rest.isEmpty
             (flush_prev env p prev st).2).2.1 none rest
           (execute_recirc env p key rid rest.isEmpty
             (flush_prev env p prev st).2).2.2.2).2.1,
       (do_execute_loop env p
         (execute_recirc env p key rid rest.isEmpty
           (flush_prev env p prev st).2).2.1 none rest
         (execute_recirc env p key rid rest.isEmpty
           (flush_prev env p prev st).2).2.2.2).2.2) := by
  simp only [do_execute_loop]
  obtain ⟨hok, _⟩ := execute_recirc_ok env p key rid rest.isEmpty
    (flush_prev env p prev st).2 hkey
  rcases hr : execute_recirc env p key rid rest.isEmpty
      (flush_prev env p prev st).2 with ⟨er, key1, evs, st1⟩
  rw [hr] at hok
  have hok2 : er = none := hok
  subst hok2
  rw [hne]
  rfl

theorem do_execute_loop_last (env : Env)
    (hports : ∀ q, env.ports q = true)
    (_hclone : ∀ n, env.cloneOk n = true)
    (hkey : ∀ q, ∃ k, env.keyUpd q = Except.ok k) :
    ∀ (l : List Act) (q : Nat) (p : Pkt) (key : SwFlowKey) (prev : Option Nat)
      (st : MSt),
    err_free (l ++ [Act.output q]) → p.pid < st.nextId →
    ∃ evs1 c,
      (do_execute_loop env p key prev (l ++ [Act.output q]) st).2.1 =
        evs1 ++ [Ev.sent q ⟨p.pid, c⟩] ∧
      (∀ (port : Nat) (pk : Pkt), Ev.sent port pk ∈ evs1 → pk.pid ≠ p.pid) := by
  intro l
  induction l with
  | nil =>
      intro q p key prev st herr hpid
      refine ⟨(flush_prev env p prev st).1, p.contents, ?_, ?_⟩
      · show (do_execute_loop env p key prev [Act.output q] st).2.1 = _
        simp only [do_execute_loop]
        unfold do_output
        rw [if_pos (hports q)]
      · exact fun port pk hm => flush_sent_pid env p prev st hpid port pk hm
  | cons a l2 ih =>
      intro q p key prev st herr hpid
      rw [List.cons_append] at herr
      obtain ⟨ha, hrest⟩ := err_free_cons herr
      have hfl := (flush_prev_st env p prev st).1
      have hflpid := flush_sent_pid env p prev st hpid
      have hmono : st.nextId ≤ (flush_prev env p prev st).2.nextId := hfl.2.2.2.1
      show ∃ evs1 c,
        (do_execute_loop env p key prev
          (a :: (l2 ++ [Act.output q])) st).2.1 = evs1 ++ [Ev.sent q ⟨p.pid, c⟩] ∧
        (∀ (port : Nat) (pk : Pkt), Ev.sent port pk ∈ evs1 → pk.pid ≠ p.pid)
      cases a with
      | output port =>
          simp only [do_execute_loop]
          obtain ⟨evs1, c, hEq, hMem⟩ :=
            ih q p key (some port) (flush_prev env p prev st).2 hrest
              (Nat.lt_of_lt_of_le hpid hmono)
          refine ⟨(flush_prev env p prev st).1 ++ evs1, c, ?_, ?_⟩
          · rw [hEq, List.append_assoc]
          · intro port2 pk hm
            rcases List.mem_append.1 hm with h | h
            · exact hflpid port2 pk h
            · exact hMem port2 pk h
      | userspace =>
          simp only [do_execute_loop]
          obtain ⟨evs1, c, hEq, hMem⟩ :=
            ih q p key none (flush_prev env p prev st).2 hrest
              (Nat.lt_of_lt_of_le hpid hmono)
          refine ⟨((flush_prev env p prev st).1 ++ [Ev.upcall p]) ++ evs1, c, ?_, ?_⟩
          · rw [hEq, List.append_assoc, List.append_assoc, List.append_assoc]
          · intro port2 pk hm
            rcases List.mem_append.1 hm with h | h
            · rcases List.mem_append.1 h with h | h
              · exact hflpid port2 pk h
              · simp at h
            · exact hMem port2 pk h
      | hash basis =>
          simp only [do_execute_loop]
          obtain ⟨evs1, c, hEq, hMem⟩ :=
            ih q p ⟨key.eth_type, key.recirc_id,
                if env.hashFn p.contents basis = 0 then 1
                else env.hashFn p.contents basis⟩ none
              (flush_prev env p prev st).2 hrest (Nat.lt_of_lt_of_le hpid hmono)
          refine ⟨(flush_prev env p prev st).1 ++ evs1, c, ?_, ?_⟩
          · rw [hEq, List.append_assoc]
          · intro port2 pk hm
            rcases List.mem_append.1 hm with h | h
            · exact hflpid port2 pk h
            · exact hMem port2 pk h
      | push_mpls f e =>
          cases e with
          | some ec => cases ha
          | none =>
              simp only [do_execute_loop]
              obtain ⟨evs1, c, hEq, hMem⟩ :=
                ih q ⟨p.pid, f p.contents⟩ (invalidate_flow_key key) none
                  (flush_prev env p prev st).2 hrest (Nat.lt_of_lt_of_le hpid hmono)
              refine ⟨(flush_prev env p prev st).1 ++ evs1, c, ?_, ?_⟩
              · rw [hEq, List.append_assoc]
              · intro port2 pk hm
                rcases List.mem_append.1 hm with h | h
                · exact hflpid port2 pk h
                · exact hMem port2 pk h
      | pop_mpls f e =>
          cases e with
          | some ec => cases ha
          | none =>
              simp only [do_execute_loop]
              obtain ⟨evs1, c, hEq, hMem⟩ :=
                ih q ⟨p.pid, f p.contents⟩ (invalidate_flow_key key) none
                  (flush_prev env p prev st).2 hrest (Nat.lt_of_lt_of_le hpid hmono)
              refine ⟨(flush_prev env p prev st).1 ++ evs1, c, ?_, ?_⟩
              · rw [hEq, List.append_assoc]
              · intro port2 pk hm
                rcases List.mem_append.1 hm with h | h
                · exact hflpid port2 pk h
                · exact hMem port2 pk h
      | push_vlan f inval e =>
          cases e with
          | some ec => cases ha
          | none =>
              simp only [do_execute_loop, push_vlan]
              obtain ⟨evs1, c, hEq, hMem⟩ :=
                ih q ⟨p.pid, f p.contents⟩
                  (if inval then invalidate_flow_key key else key) none
                  (flush_prev env p prev st).2 hrest (Nat.lt_of_lt_of_le hpid hmono)
              refine ⟨((flush_prev env p prev st).1 ++ []) ++ evs1, c, ?_, ?_⟩
              · rw [hEq, List.append_assoc, List.append_assoc, List.append_assoc]
              · intro port2 pk hm
                rcases List.mem_append.1 hm with h | h
                · rcases List.mem_append.1 h with h | h
                  · exact hflpid port2 pk h
                  · exact absurd h (List.not_mem_nil _)
                · exact hMem port2 pk h
      | pop_vlan f inval e =>
          cases e with
          | some ec => cases ha
          | none =>
              simp only [do_execute_loop]
              obtain ⟨evs1, c, hEq, hMem⟩ :=
                ih q ⟨p.pid, f p.contents⟩
                  (if inval then invalidate_flow_key key else key) none
                  (flush_prev env p prev st).2 hrest (Nat.lt_of_lt_of_le hpid hmono)
              refine ⟨(flush_prev env p prev st).1 ++ evs1, c, ?_, ?_⟩
              · rw [hEq, List.append_assoc]
              · intro port2 pk hm
                rcases List.mem_append.1 hm with h | h
                · exact hflpid port2 pk h
                · exact hMem port2 pk h
      | recirc rid =>
          have hlast : (l2 ++ [Act.output q]).isEmpty = false := by
            cases l2 <;> rfl
          rw [do_execute_loop_recirc_step env p key prev rid _ st hkey hlast]
          obtain ⟨_, hsent⟩ := execute_recirc_ok env p key rid
            (l2 ++ [Act.output q]).isEmpty (flush_prev env p prev st).2 hkey
          have hst := (execute_recirc_st env p key rid
            (l2 ++ [Act.output q]).isEmpty (flush_prev env p prev st).2).1
          have hmono2 : (flush_prev env p prev st).2.nextId ≤
              (execute_recirc env p key rid (l2 ++ [Act.output q]).isEmpty
                (flush_prev env p prev st).2).2.2.2.nextId := hst.2.2.2.1
          obtain ⟨evs1, c, hEq, hMem⟩ :=
            ih q p
              (execute_recirc env p key rid (l2 ++ [Act.output q]).isEmpty
                (flush_prev env p prev st).2).2.1 none
              (execute_recirc env p key rid (l2 ++ [Act.output q]).isEmpty
                (flush_prev env p prev st).2).2.2.2 hrest
              (Nat.lt_of_lt_of_le hpid (Nat.le_trans hmono hmono2))
          refine ⟨((flush_prev env p prev st).1 ++
              (execute_recirc env p key rid (l2 ++ [Act.output q]).isEmpty
                (flush_prev env p prev st).2).2.2.1) ++ evs1, c, ?_, ?_⟩
          · show (flush_prev env p prev st).1 ++ _ ++ _ = _
            rw [hEq, List.append_assoc, List.append_assoc, List.append_assoc]
          · intro port2 pk hm
            rcases List.mem_append.1 hm with h | h
            · rcases List.mem_append.1 h with h | h
              · exact hflpid port2 pk h
              · exact (no_sent_of_sent_list_nil hsent h).elim
            · exact hMem port2 pk h
      | set_field f e =>
          cases e with
          | some ec => cases ha
          | none =>
              simp only [do_execute_loop]
              obtain ⟨evs1, c, hEq, hMem⟩ :=
                ih q ⟨p.pid, f p.contents⟩ key none
                  (flush_prev env p prev st).2 hrest (Nat.lt_of_lt_of_le hpid hmono)
              refine ⟨(flush_prev env p prev st).1 ++ evs1, c, ?_, ?_⟩
              · rw [hEq, List.append_assoc]
              · intro port2 pk hm
                rcases List.mem_append.1 hm with h | h
                · exact hflpid port2 pk h
                · exact hMem port2 pk h
      | sample pass sacts =>
          rw [do_execute_loop_sample_step]
          have hsent := sample_sent env p key pass sacts (flush_prev env p prev st).2
          have hst := (sample_st env p key pass sacts (flush_prev env p prev st).2).1
          have hmono2 : (flush_prev env p prev st).2.nextId ≤
              (sample env p key pass sacts (flush_prev env p prev st).2).2.2.nextId :=
            hst.2.2.2.1
          obtain ⟨evs1, c, hEq, hMem⟩ :=
            ih q p key none
              (sample env p key pass sacts (flush_prev env p prev st).2).2.2 hrest
              (Nat.lt_of_lt_of_le hpid (Nat.le_trans hmono hmono2))
          refine ⟨((flush_prev env p prev st).1 ++
              (sample env p key pass sacts (flush_prev env p prev st).2).2.1) ++ evs1,
            c, ?_, ?_⟩
          · show (flush_prev env p prev st).1 ++ _ ++ _ = _
            rw [hEq, List.append_assoc, List.append_assoc, List.append_assoc]
          · intro port2 pk hm
            rcases List.mem_append.1 hm with h | h
            · rcases List.mem_append.1 h with h | h
              · exact hflpid port2 pk h
              · exact (no_sent_of_sent_list_nil hsent h).elim
            · exact hMem port2 pk h

/-- C3: with working clones and vports and no mutator errors, the
sequence of (port, contents-at-send) pairs the staged executor emits
equals that of the in-order reference executor; when the list ends with
an OUTPUT the last emission sends the original buffer (its identity,
not a clone) while every earlier emission uses a clone; a staged output
whose clone allocation fails is silently skipped, execution continuing
as if nothing had been staged; and with no output staged at the end the
packet is consumed. -/
theorem do_execute_actions_output_staging :
    (∀ (env : Env), (∀ q, env.ports q = true) → (∀ n, env.cloneOk n = true) →
      (∀ q, ∃ k, env.keyUpd q = Except.ok k) →
      ∀ (acts : List Act) (p : Pkt) (key : SwFlowKey) (st : MSt),
      err_free acts →
      sent_list (do_execute_actions env p key acts st).2.1 =
        in_order_outputs p.contents acts) ∧
    (∀ (env : Env), (∀ q, env.ports q = true) → (∀ n, env.cloneOk n = true) →
      (∀ q, ∃ k, env.keyUpd q = Except.ok k) →
      ∀ (l : List Act) (q : Nat) (p : Pkt) (key : SwFlowKey) (st : MSt),
      err_free (l ++ [Act.output q]) → p.pid < st.nextId →
      ∃ evs1 c,
        (do_execute_actions env p key (l ++ [Act.output q]) st).2.1 =
          evs1 ++ [Ev.sent q ⟨p.pid, c⟩] ∧
        (∀ (port : Nat) (pk : Pkt), Ev.sent port pk ∈ evs1 → pk.pid ≠ p.pid)) ∧
    (∀ (env : Env) (p : Pkt) (key : SwFlowKey) (q : Nat) (a : Act)
        (rest : List Act) (st : MSt),
      env.cloneOk st.cloneTick = false →
      do_execute_loop env p key (some q) (a :: rest) st =
        do_execute_loop env p key none (a :: rest)
          ⟨st.nextId, st.cloneTick + 1, st.fifo, st.level⟩) ∧
    (∀ (env : Env) (p : Pkt) (key : SwFlowKey) (st : MSt),
      do_execute_loop env p key none [] st = (none, [Ev.consumed p], st)) := by
  refine ⟨?_, ?_, ?_, ?_⟩
  · intro env hports hclone hkey acts p key st herr
    exact do_execute_loop_trace env hports hclone hkey acts p key none st herr
  · intro env hports hclone hkey l q p key st herr hpid
    exact do_execute_loop_last env hports hclone hkey l q p key none st herr hpid
  · intro env p key q a rest st hc
    have hsc : skb_clone env st p =
        (none, ⟨st.nextId, st.cloneTick + 1, st.fifo, st.level⟩) := by
      simp [skb_clone, hc]
    simp only [do_execute_loop, flush_prev, hsc]
  · intro env p key st
    rfl

/-- C3 witness: for OUTPUT(3), a +1 mutation, OUTPUT(4), the emitted
trace is (3, 7) then (4, 8), matching the in-order executor. -/
theorem do_execute_actions_output_staging_w :
    sent_list (do_execute_actions
        ⟨fun _ => true, fun _ => true, fun _ => Except.ok ⟨1, 0, 0⟩, fun _ _ => 0⟩
        ⟨1, 7⟩ ⟨5, 0, 0⟩
        [Act.output 3, Act.set_field (fun c => c + 1) none, Act.output 4]
        ⟨2, 0, ⟨0, 0, []⟩, 0⟩).2.1 =
      in_order_outputs 7
        [Act.output 3, Act.set_field (fun c => c + 1) none, Act.output 4] :=
  do_execute_actions_output_staging.1
    ⟨fun _ => true, fun _ => true, fun _ => Except.ok ⟨1, 0, 0⟩, fun _ _ => 0⟩
    (fun _ => rfl) (fun _ => rfl) (fun _ => ⟨⟨1, 0, 0⟩, rfl⟩)
    [Act.output 3, Act.set_field (fun c => c + 1) none, Act.output 4]
    ⟨1, 7⟩ ⟨5, 0, 0⟩ ⟨2, 0, ⟨0, 0, []⟩, 0⟩
    (by
      intro a ha
      rcases List.mem_cons.1 ha with h | ha2
      · subst h; rfl
      · rcases List.mem_cons.1 ha2 with h | ha3
        · subst h; rfl
        · rcases List.mem_cons.1 ha3 with h | ha4
          · subst h; rfl
          · exact absurd ha4 (List.not_mem_nil _))
